import Mathlib

/-!
Verification of the open-council debate engine core.

A shallow embedding, in Lean 4, of the core of the `open-council` repository
(`src-tauri/src/decisions.rs` and `src-tauri/src/debate.rs`), together with
proofs of the claims of the specification about it.

JSON values (`serde_json::Value` in the source) are modelled by the inductive
`Json` below; machine integers `i32` are modelled by `Int` (round and exchange
numbers are tiny constants, so no overflow arithmetic is involved).  Fallible
operations return `Option`.  External collaborators (the SQLite store, the
completion service, the event surface) are modelled as explicit state and
oracles, following the interface descriptions of spec §6.
-/

/-- Model of `serde_json::Value`.  Objects are association lists in insertion
order; numbers are modelled as `Int` (no claim involves non-integer numbers). -/
inductive Json where
  | null
  | bool (b : Bool)
  | num (n : Int)
  | str (s : String)
  | arr (items : List Json)
  | obj (fields : List (String × Json))

/-- Lookup of a field in the field list of an object: `serde_json::Map::get`. -/
def getField : List (String × Json) → String → Option Json
  | [], _ => none
  | (k, v) :: rest, name => if k = name then some v else getField rest name

/-- `Value::get` with a string index: `none` on any non-object value. -/
def Json.get : Json → String → Option Json
  | Json.obj fields, name => getField fields name
  | _, _ => none

/-- `Value::as_array` (the `cloned()` in the source is identity here). -/
def Json.asArray : Json → Option (List Json)
  | Json.arr items => some items
  | _ => none

/-- `Value::as_str`. -/
def Json.asStr : Json → Option String
  | Json.str s => some s
  | _ => none

/-- Insert-or-overwrite of a field in the field list of an object
(`serde_json::Map::entry(..).or_insert` followed by assignment). -/
def setField : List (String × Json) → String → Json → List (String × Json)
  | [], name, v => [(name, v)]
  | (k, w) :: rest, name, v =>
      if k = name then (k, v) :: rest else (k, w) :: setField rest name v

/-- Models the serde_json `IndexMut` for a string key (`value[key] = newVal`):
`Null` is first replaced by an empty object; on an object the key is inserted
or overwritten; on any other variant serde_json panics, modelled as `none`. -/
def Json.setKey : Json → String → Json → Option Json
  | Json.null, name, v => some (Json.obj [(name, v)])
  | Json.obj fields, name, v => some (Json.obj (setField fields name v))
  | _, _, _ => none

/-! ## `decisions.rs`: the Summary Merger -/

/-- `item.get(key).and_then(|v| v.as_str())` — the section-specific key of a
keyed list entry. -/
def itemKey (key : String) (item : Json) : Option String :=
  (item.get key).bind Json.asStr

/-- The loop body of `merge_array_by_key` (`decisions.rs` lines 57–70): a new
item whose key matches an existing one replaces it at that position
(`result[pos] = new_item`); otherwise (or when the new item has no string key)
it is pushed at the end. -/
def mergeStep (key : String) (result : List Json) (new_item : Json) : List Json :=
  match itemKey key new_item with
  | some nk =>
      match result.findIdx? (fun item => itemKey key item == some nk) with
      | some pos => result.set pos new_item
      | none => result ++ [new_item]
  | none => result ++ [new_item]

/-- `merge_array_by_key` (`decisions.rs` lines 55–72). -/
def merge_array_by_key (existing : List Json) (new_items : List Json) (key : String) :
    List Json :=
  new_items.foldl (mergeStep key) existing

/-- The parsing of the optional existing summary string
(`existing_json.and_then(|s| serde_json::from_str(s).ok()).unwrap_or_else(|| json!({}))`,
`decisions.rs` lines 7–9).  `serde_json::from_str` is external, so its result is
taken as input: `none` models a missing summary string, `some none` a string
serde_json fails to parse, `some (some v)` a string parsing to `v`. -/
def parsedExisting : Option (Option Json) → Json
  | none => Json.obj []
  | some none => Json.obj []
  | some (some v) => v

/-- One keyed-section merge of `merge_summary` (each of `decisions.rs` lines
12–20, 23–31, 34–42): skipped unless the update has the section as an array;
otherwise the existing section (defaulting to `[]` when missing or not an
array) is merged by key and written back. -/
def mergeKeyedSection (st : Json) (update : Json) (sec : String) (key : String) :
    Option Json :=
  match (update.get sec).bind Json.asArray with
  | none => some st
  | some new_items =>
      let cur := ((st.get sec).bind Json.asArray).getD []
      st.setKey sec (Json.arr (merge_array_by_key cur new_items key))

/-- `merge_summary` (`decisions.rs` lines 6–50).  The final
`serde_json::to_string` (which never fails on a `Value`) is elided: the merged
value itself is returned.  `none` models the serde_json index-assignment panic,
reachable only when the existing summary parses to a non-object, non-null
value. -/
def merge_summary (existing_json : Option (Option Json)) (update : Json) :
    Option Json := do
  let st0 := parsedExisting existing_json
  let st1 ← mergeKeyedSection st0 update "options" "label"
  let st2 ← mergeKeyedSection st1 update "variables" "label"
  let st3 ← mergeKeyedSection st2 update "pros_cons" "option"
  match update.get "recommendation" with
  | some r => st3.setKey "recommendation" r
  | none => some st3

/-! ## Claim-side description of keyed-list merging (spec §4.5)

`mergedByKeySpec` states the words of the spec: each update entry whose key matches
an existing entry replaces that entry in place, each update entry with no
matching key is appended, and untargeted existing entries are preserved. -/

/-- Two entries do not carry the same string key. -/
def keyClashB (key : String) (a b : Json) : Bool :=
  match itemKey key a, itemKey key b with
  | some ka, some kb => ka != kb
  | _, _ => true

/-- All string keys in a keyed list are pairwise distinct. -/
def keysOkB (key : String) : List Json → Bool
  | [] => true
  | a :: rest => (rest.all fun b => keyClashB key a b) && keysOkB key rest

def KeysOk (key : String) (l : List Json) : Prop := keysOkB key l = true

/-- The entry of a keyed list carrying a given key, if any. -/
def lookupByKey (key : String) (l : List Json) (k : String) : Option Json :=
  l.find? fun item => itemKey key item == some k

/-- The replacement of one existing entry: the update entry with the same key
when there is one, the existing entry itself otherwise. -/
def substEntry (key : String) (new_items : List Json) (e : Json) : Json :=
  match itemKey key e with
  | some k =>
      match new_items.find? (fun n => itemKey key n == some k) with
      | some u => u
      | none => e
  | none => e

/-- The update entries whose key matches no existing entry (these get
appended), in update order. -/
def freshEntries (key : String) (existing new_items : List Json) : List Json :=
  new_items.filter fun n =>
    match itemKey key n with
    | some k => existing.all fun e => !(itemKey key e == some k)
    | none => true

/-- The merged section as the spec words it: existing entries with targeted ones replaced in
place, followed by the appended unmatched update entries. -/
def mergedByKeySpec (key : String) (existing new_items : List Json) : List Json :=
  (existing.map (substEntry key new_items)) ++ freshEntries key existing new_items

theorem keyClashB_true_iff {key : String} {a b : Json} :
    keyClashB key a b = true ↔
      ∀ k, itemKey key a = some k → itemKey key b ≠ some k := by
  unfold keyClashB
  rcases ha : itemKey key a with _ | ka <;> rcases hb : itemKey key b with _ | kb <;>
    simp [bne_iff_ne]
  exact ne_comm

theorem keyClashB_congr_left {key : String} {a a' b : Json}
    (h : itemKey key a = itemKey key a') :
    keyClashB key a b = keyClashB key a' b := by
  unfold keyClashB; rw [h]

theorem keyClashB_congr_right {key : String} {a b b' : Json}
    (h : itemKey key b = itemKey key b') :
    keyClashB key a b = keyClashB key a b' := by
  unfold keyClashB; rw [h]

theorem keyClashB_of_none_right {key : String} {a b : Json}
    (h : itemKey key b = none) : keyClashB key a b = true := by
  unfold keyClashB; rw [h]; rcases itemKey key a with _ | ka <;> rfl

theorem keysOk_nil {key : String} : KeysOk key [] := rfl

theorem keysOk_cons {key : String} {a : Json} {l : List Json} :
    KeysOk key (a :: l) ↔ (∀ b ∈ l, keyClashB key a b = true) ∧ KeysOk key l := by
  simp [KeysOk, keysOkB, List.all_eq_true]

theorem findIdx?_zero_spec {α : Type} {p : α → Bool} :
    ∀ (l : List α) (pos : Nat), l.findIdx? p = some pos →
      ∃ h : pos < l.length, p (l.get ⟨pos, h⟩) = true
  | [], pos, h => by simp [List.findIdx?_nil] at h
  | x :: xs, pos, h => by
      rw [List.findIdx?_cons] at h
      by_cases hp : p x = true
      · simp [hp] at h
        subst h
        exact ⟨Nat.succ_pos _, by simpa using hp⟩
      · simp [hp] at h
        obtain ⟨a, ha, hpos⟩ := h
        obtain ⟨hlt, hpa⟩ := findIdx?_zero_spec xs a ha
        subst hpos
        exact ⟨by simpa using Nat.succ_lt_succ hlt, by simpa using hpa⟩

theorem keysOk_unique {key : String} :
    ∀ {l : List Json}, KeysOk key l →
      ∀ {i j : Nat} (hi : i < l.length) (hj : j < l.length) {k : String},
        itemKey key (l.get ⟨i, hi⟩) = some k →
        itemKey key (l.get ⟨j, hj⟩) = some k → i = j := by
  intro l
  induction l with
  | nil => intro _ i j hi; simp at hi
  | cons a t ih =>
      intro h i j hi hj k hik hjk
      obtain ⟨hcl, ht⟩ := keysOk_cons.mp h
      match i, j with
      | 0, 0 => rfl
      | 0, j + 1 =>
          exfalso
          have hj' : j < t.length := by simpa using hj
          have hmem : t.get ⟨j, hj'⟩ ∈ t := List.get_mem ..
          exact (keyClashB_true_iff.mp (hcl _ hmem)) k (by simpa using hik)
            (by simpa using hjk)
      | i + 1, 0 =>
          exfalso
          have hi' : i < t.length := by simpa using hi
          have hmem : t.get ⟨i, hi'⟩ ∈ t := List.get_mem ..
          exact (keyClashB_true_iff.mp (hcl _ hmem)) k (by simpa using hjk)
            (by simpa using hik)
      | i + 1, j + 1 =>
          have := ih ht (i := i) (j := j) (by simpa using hi) (by simpa using hj)
            (by simpa using hik) (by simpa using hjk)
          omega

theorem keysOk_append_singleton {key : String} {n : Json} :
    ∀ {l : List Json}, KeysOk key l → (∀ e ∈ l, keyClashB key e n = true) →
      KeysOk key (l ++ [n]) := by
  intro l
  induction l with
  | nil =>
      intro _ _
      simp [KeysOk, keysOkB]
  | cons a t ih =>
      intro h hall
      obtain ⟨hcl, ht⟩ := keysOk_cons.mp h
      refine keysOk_cons.mpr ⟨?_, ih ht fun e he => hall e (List.mem_cons_of_mem _ he)⟩
      intro b hb
      rcases List.mem_append.mp hb with hb | hb
      · exact hcl _ hb
      · rw [List.mem_singleton.mp hb]
        exact hall a (List.mem_cons_self ..)

theorem keysOk_set {key : String} :
    ∀ {l : List Json} {pos : Nat} {n : Json}, KeysOk key l →
      ∀ (hpos : pos < l.length),
        itemKey key n = itemKey key (l.get ⟨pos, hpos⟩) → KeysOk key (l.set pos n) := by
  intro l
  induction l with
  | nil => intro pos n _ hpos; simp at hpos
  | cons a t ih =>
      intro pos n h hpos hkey
      obtain ⟨hcl, ht⟩ := keysOk_cons.mp h
      match pos with
      | 0 =>
          rw [List.set_cons_zero]
          refine keysOk_cons.mpr ⟨?_, ht⟩
          intro b hb
          rw [keyClashB_congr_left (by simpa using hkey)]
          exact hcl _ hb
      | pos + 1 =>
          rw [List.set_cons_succ]
          have hpos' : pos < t.length := by simpa using hpos
          refine keysOk_cons.mpr ⟨?_, ih ht hpos' (by simpa using hkey)⟩
          intro b hb
          rcases List.mem_or_eq_of_mem_set hb with hb | hb
          · exact hcl _ hb
          · subst hb
            rw [keyClashB_congr_right
              (show itemKey key b = itemKey key (t.get ⟨pos, hpos'⟩) from by simpa using hkey)]
            exact hcl _ (List.get_mem ..)

theorem substEntry_key_none {key : String} {e : Json} {ns : List Json}
    (he : itemKey key e = none) : substEntry key ns e = e := by
  unfold substEntry
  rw [he]

theorem substEntry_key_eq {key k : String} {e : Json} {ns : List Json}
    (he : itemKey key e = some k) :
    substEntry key ns e =
      match ns.find? (fun n => itemKey key n == some k) with
      | some u => u
      | none => e := by
  unfold substEntry
  rw [he]

theorem substEntry_nil {key : String} (e : Json) : substEntry key [] e = e := by
  rcases he : itemKey key e with _ | k
  · exact substEntry_key_none he
  · rw [substEntry_key_eq he, List.find?_nil]

theorem substEntry_cons_of_clash {key : String} {n e : Json} {rest : List Json}
    (h : keyClashB key e n = true) :
    substEntry key (n :: rest) e = substEntry key rest e := by
  rcases he : itemKey key e with _ | k
  · rw [substEntry_key_none he, substEntry_key_none he]
  · rw [substEntry_key_eq he, substEntry_key_eq he, List.find?_cons_of_neg]
    simpa using fun hbeq => keyClashB_true_iff.mp h k he hbeq

theorem substEntry_cons_self {key nk : String} {n e : Json} {rest : List Json}
    (he : itemKey key e = some nk) (hn : itemKey key n = some nk) :
    substEntry key (n :: rest) e = n := by
  have hp : (fun x => itemKey key x == some nk) n = true := by simp [hn]
  rw [substEntry_key_eq he,
    @List.find?_cons_of_pos _ (fun x => itemKey key x == some nk) n rest hp]

theorem freshEntries_nil {key : String} (existing : List Json) :
    freshEntries key existing [] = [] := rfl

theorem freshEntries_cons_of_none {key : String} {n : Json}
    {existing rest : List Json} (hn : itemKey key n = none) :
    freshEntries key existing (n :: rest) = n :: freshEntries key existing rest := by
  unfold freshEntries
  rw [List.filter_cons]
  simp [hn]

theorem freshEntries_cons_of_nomatch {key nk : String} {n : Json}
    {existing rest : List Json} (hn : itemKey key n = some nk)
    (hall : ∀ e ∈ existing, ¬ itemKey key e = some nk) :
    freshEntries key existing (n :: rest) = n :: freshEntries key existing rest := by
  unfold freshEntries
  rw [List.filter_cons]
  have hcond : (existing.all fun e => !(itemKey key e == some nk)) = true := by
    rw [List.all_eq_true]
    intro e he
    simpa using hall e he
  simp [hn, hcond]

theorem freshEntries_cons_of_match {key nk : String} {n e0 : Json}
    {existing rest : List Json} (hn : itemKey key n = some nk)
    (he0 : e0 ∈ existing) (hk0 : itemKey key e0 = some nk) :
    freshEntries key existing (n :: rest) = freshEntries key existing rest := by
  unfold freshEntries
  rw [List.filter_cons]
  have hcond : (existing.all fun e => !(itemKey key e == some nk)) = false := by
    rw [List.all_eq_false]
    exact ⟨e0, he0, by simp [hk0]⟩
  simp [hn, hcond]

theorem freshEntries_append_singleton {key : String} {n : Json}
    {existing rest : List Json}
    (h : ∀ r ∈ rest, ∀ k, itemKey key r = some k → ¬ itemKey key n = some k) :
    freshEntries key (existing ++ [n]) rest = freshEntries key existing rest := by
  unfold freshEntries
  refine List.filter_congr fun r hr => ?_
  rcases hrk : itemKey key r with _ | k
  · simp only [hrk]
  · simp only [hrk, List.all_append, List.all_cons, List.all_nil, Bool.and_true]
    have hne : (itemKey key n == some k) = false := by
      simpa using fun hbeq => h r hr k hrk hbeq
    rw [hne]
    simp

theorem all_itemKey_congr {key : String} {f : Option String → Bool} :
    ∀ {l1 l2 : List Json}, l1.length = l2.length →
      (∀ (i : Nat) (h1 : i < l1.length) (h2 : i < l2.length),
        itemKey key (l1.get ⟨i, h1⟩) = itemKey key (l2.get ⟨i, h2⟩)) →
      (l1.all fun e => f (itemKey key e)) = (l2.all fun e => f (itemKey key e)) := by
  intro l1
  induction l1 with
  | nil =>
      intro l2 hlen _
      cases l2 with
      | nil => rfl
      | cons b u => simp at hlen
  | cons a t ih =>
      intro l2 hlen hik
      cases l2 with
      | nil => simp at hlen
      | cons b u =>
          simp only [List.all_cons]
          have h0 := hik 0 (by simp) (by simp)
          simp only [List.get_eq_getElem, List.getElem_cons_zero] at h0
          rw [h0]
          congr 1
          exact ih (by simpa using hlen) fun i h1 h2 => by
            simpa using hik (i + 1) (by simpa using h1) (by simpa using h2)

theorem freshEntries_set {key : String} {n : Json} {existing rest : List Json}
    {pos : Nat} (hpos : pos < existing.length)
    (hkey : itemKey key n = itemKey key (existing.get ⟨pos, hpos⟩)) :
    freshEntries key (existing.set pos n) rest = freshEntries key existing rest := by
  unfold freshEntries
  refine List.filter_congr fun r hr => ?_
  rcases hrk : itemKey key r with _ | k
  · simp only [hrk]
  · simp only [hrk]
    refine all_itemKey_congr (f := fun o => !(o == some k)) (by simp) fun i h1 h2 => ?_
    simp only [List.get_eq_getElem, List.getElem_set]
    by_cases hip : pos = i
    · subst hip
      simp only [if_pos rfl]
      simpa using hkey
    · simp [hip]

/-- The fold of the source realises exactly the replace-in-place / append /
preserve description of the spec, for sections whose entries carry pairwise distinct keys. -/
theorem merge_array_by_key_eq_spec {key : String} :
    ∀ (new_items existing : List Json), KeysOk key existing → KeysOk key new_items →
      merge_array_by_key existing new_items key = mergedByKeySpec key existing new_items := by
  intro new_items
  induction new_items with
  | nil =>
      intro existing hex _
      unfold merge_array_by_key mergedByKeySpec
      rw [List.foldl_nil, freshEntries_nil, List.append_nil]
      have hmap : existing.map (substEntry key []) = existing.map id :=
        List.map_congr_left fun e _ => substEntry_nil e
      rw [hmap, List.map_id]
  | cons n rest ih =>
      intro existing hex hnew
      obtain ⟨hclash, hrest⟩ := keysOk_cons.mp hnew
      have hstep : merge_array_by_key existing (n :: rest) key
          = merge_array_by_key (mergeStep key existing n) rest key := by
        unfold merge_array_by_key
        rw [List.foldl_cons]
      rw [hstep]
      have hsubrest : ∀ {nk : String}, itemKey key n = some nk → substEntry key rest n = n := by
        intro nk hn
        rw [substEntry_key_eq hn]
        have hfind : rest.find? (fun x => itemKey key x == some nk) = none := by
          rw [List.find?_eq_none]
          intro r hr
          simpa using fun hbeq => keyClashB_true_iff.mp (hclash r hr) nk hn hbeq
        rw [hfind]
      rcases hn : itemKey key n with _ | nk
      · -- the new item carries no string key: it is pushed at the end
        have hms : mergeStep key existing n = existing ++ [n] := by
          simp only [mergeStep, hn]
        have hexn : KeysOk key (existing ++ [n]) :=
          keysOk_append_singleton hex fun e _ => keyClashB_of_none_right hn
        rw [hms, ih (existing ++ [n]) hexn hrest]
        unfold mergedByKeySpec
        have hfr : freshEntries key (existing ++ [n]) rest
            = freshEntries key existing rest :=
          freshEntries_append_singleton fun r _ k _ hcontra => by
            rw [hn] at hcontra
            exact Option.noConfusion hcontra
        have hmap : existing.map (substEntry key (n :: rest))
            = existing.map (substEntry key rest) :=
          List.map_congr_left fun e _ =>
            substEntry_cons_of_clash (keyClashB_of_none_right hn)
        rw [List.map_append, hfr, freshEntries_cons_of_none hn, hmap]
        simp [substEntry_key_none hn]
      · rcases hfi : existing.findIdx? (fun item => itemKey key item == some nk)
          with _ | pos
        · -- keyed new item matching no existing entry: pushed at the end
          have hms : mergeStep key existing n = existing ++ [n] := by
            simp only [mergeStep, hn, hfi]
          have hnomatch : ∀ e ∈ existing, ¬ itemKey key e = some nk := by
            intro e he hk
            have := List.findIdx?_eq_none_iff.mp hfi e he
            simp [hk] at this
          have hexn : KeysOk key (existing ++ [n]) := by
            refine keysOk_append_singleton hex fun e he => ?_
            refine keyClashB_true_iff.mpr fun k hk hcontra => ?_
            rw [hn] at hcontra
            have hnk := Option.some.inj hcontra
            exact hnomatch e he (hk.trans (by rw [hnk]))
          rw [hms, ih (existing ++ [n]) hexn hrest]
          unfold mergedByKeySpec
          have hfr : freshEntries key (existing ++ [n]) rest
              = freshEntries key existing rest := by
            refine freshEntries_append_singleton fun r hr k hk hcontra => ?_
            rw [hn] at hcontra
            have hnk := Option.some.inj hcontra
            exact keyClashB_true_iff.mp (hclash r hr) nk hn (hk.trans (by rw [hnk]))
          have hmap : existing.map (substEntry key (n :: rest))
              = existing.map (substEntry key rest) := by
            refine List.map_congr_left fun e he => ?_
            refine substEntry_cons_of_clash (keyClashB_true_iff.mpr fun k hk hcontra => ?_)
            rw [hn] at hcontra
            have hnk := Option.some.inj hcontra
            exact hnomatch e he (hk.trans (by rw [hnk]))
          rw [List.map_append, hfr, freshEntries_cons_of_nomatch hn hnomatch, hmap]
          simp [hsubrest hn]
        · -- keyed new item matching the entry at `pos`: replaced in place
          have hms : mergeStep key existing n = existing.set pos n := by
            simp only [mergeStep, hn, hfi]
          obtain ⟨hpos, hppos⟩ := findIdx?_zero_spec existing pos hfi
          have hkpos : itemKey key (existing.get ⟨pos, hpos⟩) = some nk := by
            simpa using hppos
          have hkeyn : itemKey key n = itemKey key (existing.get ⟨pos, hpos⟩) := by
            rw [hn, hkpos]
          have hexn : KeysOk key (existing.set pos n) := keysOk_set hex hpos hkeyn
          rw [hms, ih (existing.set pos n) hexn hrest]
          unfold mergedByKeySpec
          have hmapL : (existing.set pos n).map (substEntry key rest)
              = (existing.map (substEntry key rest)).set pos n := by
            rw [List.map_set, hsubrest hn]
          have hmapR : existing.map (substEntry key (n :: rest))
              = (existing.map (substEntry key rest)).set pos n := by
            refine List.ext_getElem (by simp) fun i h1 h2 => ?_
            rw [List.getElem_map, List.getElem_set]
            by_cases hip : pos = i
            · subst hip
              rw [if_pos rfl]
              have hkposE : itemKey key existing[pos] = some nk := by
                simpa using hkpos
              exact substEntry_cons_self hkposE hn
            · rw [if_neg hip, List.getElem_map]
              refine substEntry_cons_of_clash (keyClashB_true_iff.mpr fun k hk hcontra => ?_)
              rw [hn] at hcontra
              have hnk := Option.some.inj hcontra
              have h1e : i < existing.length := by simpa using h1
              have hik : itemKey key (existing.get ⟨i, h1e⟩) = some nk := by
                simp only [List.get_eq_getElem]
                exact hk.trans (by rw [hnk])
              exact hip (keysOk_unique hex hpos h1e hkpos hik)
          have hfr2 : freshEntries key existing (n :: rest)
              = freshEntries key existing rest :=
            freshEntries_cons_of_match hn (List.get_mem ..) hkpos
          rw [hmapL, hmapR, freshEntries_set hpos hkeyn, hfr2]

/-- Replacing an entry by its update entry never changes the key of the entry. -/
theorem itemKey_substEntry {key : String} (new_items : List Json) (e : Json) :
    itemKey key (substEntry key new_items e) = itemKey key e := by
  rcases he : itemKey key e with _ | k
  · rw [substEntry_key_none he, he]
  · rw [substEntry_key_eq he]
    rcases hf : new_items.find? (fun n => itemKey key n == some k) with _ | u
    · exact he
    · have := List.find?_some hf
      simp only [beq_iff_eq] at this
      rw [this]

theorem find?_congr_pred {α : Type} {p q : α → Bool} :
    ∀ {l : List α}, (∀ a ∈ l, p a = q a) → l.find? p = l.find? q := by
  intro l
  induction l with
  | nil => intro _; rfl
  | cons a t ih =>
      intro h
      rw [List.find?_cons, List.find?_cons, h a (List.mem_cons_self ..),
        ih fun b hb => h b (List.mem_cons_of_mem _ hb)]

theorem find?_filter_of_find? {α : Type} {p q : α → Bool} :
    ∀ {l : List α} {u : α}, l.find? p = some u → q u = true →
      (l.filter q).find? p = some u := by
  intro l
  induction l with
  | nil => intro u h; simp [List.find?_nil] at h
  | cons a t ih =>
      intro u h hq
      rw [List.find?_cons] at h
      rw [List.filter_cons]
      by_cases hp : p a = true
      · simp [hp] at h
        subst h
        rw [if_pos hq, List.find?_cons_of_pos _ hp]
      · simp [hp] at h
        by_cases hqa : q a = true
        · rw [if_pos hqa, List.find?_cons_of_neg _ hp]
          exact ih h hq
        · rw [if_neg hqa]
          exact ih h hq

/-- A key targeted by the update looks up to the entry of the update in the merged
section (last-write-wins per key). -/
theorem lookup_mergedByKeySpec_targeted {key : String}
    {existing new_items : List Json} {k : String} {u : Json}
    (hu : lookupByKey key new_items k = some u) :
    lookupByKey key (mergedByKeySpec key existing new_items) k = some u := by
  unfold lookupByKey at hu ⊢
  unfold mergedByKeySpec
  rw [List.find?_append]
  have hmapfind : (existing.map (substEntry key new_items)).find?
        (fun item => itemKey key item == some k)
      = (existing.find? fun item => itemKey key item == some k).map
          (substEntry key new_items) := by
    rw [List.find?_map]
    refine congrArg _ (find?_congr_pred fun e _ => ?_)
    simp only [Function.comp]
    rw [itemKey_substEntry]
  rcases hex : existing.find? (fun item => itemKey key item == some k) with _ | e0
  · -- no existing entry with this key: the update entry is among the appended ones
    rw [hmapfind, hex]
    show (freshEntries key existing new_items).find?
        (fun item => itemKey key item == some k) = some u
    unfold freshEntries
    refine find?_filter_of_find? hu ?_
    have hku : itemKey key u = some k := by
      simpa using List.find?_some hu
    rw [hku]
    rw [List.all_eq_true]
    intro e he
    have := List.find?_eq_none.mp hex e he
    simpa using this
  · -- the existing entry with this key gets substituted by the update entry
    rw [hmapfind, hex]
    have hke0 : itemKey key e0 = some k := by
      simpa using List.find?_some hex
    have hsub : substEntry key new_items e0 = u := by
      rw [substEntry_key_eq hke0, hu]
    show some (substEntry key new_items e0) = some u
    rw [hsub]

/-- A key not targeted by the update looks up unchanged in the merged
section (untargeted entries are preserved). -/
theorem lookup_mergedByKeySpec_untargeted {key : String}
    {existing new_items : List Json} {k : String}
    (hk : lookupByKey key new_items k = none) :
    lookupByKey key (mergedByKeySpec key existing new_items) k
      = lookupByKey key existing k := by
  unfold lookupByKey at hk ⊢
  unfold mergedByKeySpec
  rw [List.find?_append]
  have hmapfind : (existing.map (substEntry key new_items)).find?
        (fun item => itemKey key item == some k)
      = (existing.find? fun item => itemKey key item == some k).map
          (substEntry key new_items) := by
    rw [List.find?_map]
    refine congrArg _ (find?_congr_pred fun e _ => ?_)
    simp only [Function.comp]
    rw [itemKey_substEntry]
  rcases hex : existing.find? (fun item => itemKey key item == some k) with _ | e0
  · rw [hmapfind, hex]
    show (freshEntries key existing new_items).find?
        (fun item => itemKey key item == some k) = none
    unfold freshEntries
    rw [List.find?_eq_none]
    intro x hx
    have hxnew : x ∈ new_items := (List.mem_filter.mp hx).1
    exact List.find?_eq_none.mp hk x hxnew
  · rw [hmapfind, hex]
    have hke0 : itemKey key e0 = some k := by
      simpa using List.find?_some hex
    have hsub : substEntry key new_items e0 = e0 := by
      rw [substEntry_key_eq hke0, hk]
    show some (substEntry key new_items e0) = some e0
    rw [hsub]

theorem keysOk_iff_pairwise {key : String} :
    ∀ {l : List Json}, KeysOk key l ↔ l.Pairwise fun a b => keyClashB key a b = true := by
  intro l
  induction l with
  | nil => simp [KeysOk, keysOkB]
  | cons a t ih => rw [keysOk_cons, List.pairwise_cons, ih]

/-- Merging preserves pairwise-distinctness of keys. -/
theorem keysOk_mergedByKeySpec {key : String} {existing new_items : List Json}
    (hex : KeysOk key existing) (hnew : KeysOk key new_items) :
    KeysOk key (mergedByKeySpec key existing new_items) := by
  rw [keysOk_iff_pairwise]
  unfold mergedByKeySpec
  rw [List.pairwise_append]
  refine ⟨?_, ?_, ?_⟩
  · rw [List.pairwise_map]
    refine (keysOk_iff_pairwise.mp hex).imp fun {a b} h => ?_
    rw [keyClashB_congr_left (itemKey_substEntry new_items a),
      keyClashB_congr_right (itemKey_substEntry new_items b)]
    exact h
  · exact List.Pairwise.filter _ (keysOk_iff_pairwise.mp hnew)
  · intro a ha b hb
    obtain ⟨e, he, rfl⟩ := List.mem_map.mp ha
    obtain ⟨hbnew, hq⟩ := List.mem_filter.mp hb
    rw [keyClashB_congr_left (itemKey_substEntry new_items e)]
    refine keyClashB_true_iff.mpr fun k hk hcontra => ?_
    rw [hcontra] at hq
    have hall := List.all_eq_true.mp hq e he
    simp [hk] at hall

/-- The lookup behaviour of one keyed-section merge, both when the key is
targeted by the update and when it is not. -/
theorem lookup_merge_array_by_key {key : String} {cur us : List Json}
    (hex : KeysOk key cur) (hnew : KeysOk key us) (k : String) :
    lookupByKey key (merge_array_by_key cur us key) k
      = match lookupByKey key us k with
        | some u => some u
        | none => lookupByKey key cur k := by
  rw [merge_array_by_key_eq_spec us cur hex hnew]
  rcases h : lookupByKey key us k with _ | u
  · exact lookup_mergedByKeySpec_untargeted h
  · exact lookup_mergedByKeySpec_targeted h

theorem keysOk_merge_array_by_key {key : String} {cur us : List Json}
    (hex : KeysOk key cur) (hnew : KeysOk key us) :
    KeysOk key (merge_array_by_key cur us key) := by
  rw [merge_array_by_key_eq_spec us cur hex hnew]
  exact keysOk_mergedByKeySpec hex hnew

theorem getField_setField_self :
    ∀ (fields : List (String × Json)) (name : String) (v : Json),
      getField (setField fields name v) name = some v := by
  intro fields
  induction fields with
  | nil => intro name v; simp [setField, getField]
  | cons kv rest ih =>
      intro name v
      obtain ⟨k, w⟩ := kv
      by_cases hk : k = name
      · simp [setField, getField, hk]
      · simp only [setField, if_neg hk, getField]
        exact ih name v

theorem getField_setField_other {other : String} :
    ∀ (fields : List (String × Json)) (name : String) (v : Json), other ≠ name →
      getField (setField fields name v) other = getField fields other := by
  intro fields
  induction fields with
  | nil =>
      intro name v hne
      simp only [setField, getField]
      rw [if_neg fun h : name = other => hne h.symm]
  | cons kv rest ih =>
      intro name v hne
      obtain ⟨k, w⟩ := kv
      by_cases hk : k = name
      · have hko : ¬ k = other := fun h => hne ((hk.symm.trans h).symm)
        simp only [setField, if_pos hk, getField]
        rw [if_neg hko, if_neg hko]
      · simp only [setField, if_neg hk, getField]
        by_cases hko : k = other
        · rw [if_pos hko, if_pos hko]
        · rw [if_neg hko, if_neg hko]
          exact ih name v hne

/-- The per-section result of `merge_summary` on an object: merged by key when
the update carries the section as an array, untouched otherwise. -/
def mergedSectionField (s : List (String × Json)) (update : Json)
    (sec key : String) : Option Json :=
  match (update.get sec).bind Json.asArray with
  | some us =>
      some (Json.arr
        (merge_array_by_key (((getField s sec).bind Json.asArray).getD []) us key))
  | none => getField s sec

theorem mergeKeyedSection_obj (fields : List (String × Json)) (update : Json)
    (sec key : String) :
    ∃ fields2, mergeKeyedSection (Json.obj fields) update sec key
        = some (Json.obj fields2) ∧
      getField fields2 sec = mergedSectionField fields update sec key ∧
      ∀ other, other ≠ sec → getField fields2 other = getField fields other := by
  unfold mergeKeyedSection mergedSectionField
  rcases hupd : (update.get sec).bind Json.asArray with _ | us
  · exact ⟨fields, rfl, rfl, fun _ _ => rfl⟩
  · refine ⟨setField fields sec
      (Json.arr (merge_array_by_key
        ((((Json.obj fields).get sec).bind Json.asArray).getD []) us key)), rfl, ?_, ?_⟩
    · rw [getField_setField_self]
      rfl
    · intro other hne
      exact getField_setField_other _ _ _ hne

theorem mergedSectionField_congr {s1 s2 : List (String × Json)} {update : Json}
    {sec key : String} (h : getField s1 sec = getField s2 sec) :
    mergedSectionField s1 update sec key = mergedSectionField s2 update sec key := by
  unfold mergedSectionField
  rw [h]

/-- `merge_summary` on an object existing summary: always succeeds, merges the
three keyed sections independently, wholly replaces the recommendation when the
update carries one, and leaves everything else untouched. -/
theorem merge_summary_obj_spec (s : List (String × Json)) (update : Json) :
    ∃ m, merge_summary (some (some (Json.obj s))) update = some (Json.obj m) ∧
      getField m "options" = mergedSectionField s update "options" "label" ∧
      getField m "variables" = mergedSectionField s update "variables" "label" ∧
      getField m "pros_cons" = mergedSectionField s update "pros_cons" "option" ∧
      getField m "recommendation" =
        (match update.get "recommendation" with
         | some r => some r
         | none => getField s "recommendation") ∧
      ∀ other, other ≠ "options" → other ≠ "variables" → other ≠ "pros_cons" →
        other ≠ "recommendation" → getField m other = getField s other := by
  obtain ⟨f1, h1eq, h1sec, h1oth⟩ := mergeKeyedSection_obj s update "options" "label"
  obtain ⟨f2, h2eq, h2sec, h2oth⟩ := mergeKeyedSection_obj f1 update "variables" "label"
  obtain ⟨f3, h3eq, h3sec, h3oth⟩ := mergeKeyedSection_obj f2 update "pros_cons" "option"
  have e1 : merge_summary (some (some (Json.obj s))) update
      = (mergeKeyedSection (Json.obj s) update "options" "label").bind fun st1 =>
          (mergeKeyedSection st1 update "variables" "label").bind fun st2 =>
            (mergeKeyedSection st2 update "pros_cons" "option").bind fun st3 =>
              match update.get "recommendation" with
              | some r => st3.setKey "recommendation" r
              | none => some st3 := rfl
  have hrun : merge_summary (some (some (Json.obj s))) update
      = match update.get "recommendation" with
        | some r => (Json.obj f3).setKey "recommendation" r
        | none => some (Json.obj f3) := by
    rw [e1, h1eq]
    show ((mergeKeyedSection (Json.obj f1) update "variables" "label").bind fun st2 =>
        (mergeKeyedSection st2 update "pros_cons" "option").bind fun st3 =>
          match update.get "recommendation" with
          | some r => st3.setKey "recommendation" r
          | none => some st3) = _
    rw [h2eq]
    show ((mergeKeyedSection (Json.obj f2) update "pros_cons" "option").bind fun st3 =>
        match update.get "recommendation" with
        | some r => st3.setKey "recommendation" r
        | none => some st3) = _
    rw [h3eq]
    rfl
  have hopt3 : getField f3 "options" = mergedSectionField s update "options" "label" := by
    rw [h3oth _ (by decide), h2oth _ (by decide), h1sec]
  have hvar3 : getField f3 "variables" = mergedSectionField s update "variables" "label" := by
    rw [h3oth _ (by decide), h2sec]
    exact mergedSectionField_congr (h1oth _ (by decide))
  have hpc3 : getField f3 "pros_cons" = mergedSectionField s update "pros_cons" "option" := by
    rw [h3sec]
    exact mergedSectionField_congr ((h2oth _ (by decide)).trans (h1oth _ (by decide)))
  have hrec3 : getField f3 "recommendation" = getField s "recommendation" := by
    rw [h3oth _ (by decide), h2oth _ (by decide), h1oth _ (by decide)]
  have hoth3 : ∀ other, other ≠ "options" → other ≠ "variables" → other ≠ "pros_cons" →
      getField f3 other = getField s other := by
    intro other ho hv hp
    rw [h3oth _ hp, h2oth _ hv, h1oth _ ho]
  rcases hupd : update.get "recommendation" with _ | r
  · refine ⟨f3, ?_, hopt3, hvar3, hpc3, ?_, ?_⟩
    · rw [hrun, hupd]
    · rw [hrec3]
    · intro other ho hv hp _
      exact hoth3 other ho hv hp
  · refine ⟨setField f3 "recommendation" r, ?_, ?_, ?_, ?_, ?_, ?_⟩
    · rw [hrun, hupd]
      rfl
    · rw [getField_setField_other _ _ _ (by decide), hopt3]
    · rw [getField_setField_other _ _ _ (by decide), hvar3]
    · rw [getField_setField_other _ _ _ (by decide), hpc3]
    · rw [getField_setField_self]
    · intro other ho hv hp hr
      rw [getField_setField_other _ _ _ hr]
      exact hoth3 other ho hv hp

/-- The entries of a keyed section of a summary value (empty when the section
is missing or not an array, matching `unwrap_or_default`). -/
def sectionItems (v : Json) (sec : String) : List Json :=
  ((v.get sec).bind Json.asArray).getD []

theorem sectionItems_after_merge {sec key : String}
    {s m : List (String × Json)} {update : Json}
    (hm : getField m sec = mergedSectionField s update sec key) :
    sectionItems (Json.obj m) sec
      = match (update.get sec).bind Json.asArray with
        | some us => merge_array_by_key (sectionItems (Json.obj s) sec) us key
        | none => sectionItems (Json.obj s) sec := by
  unfold sectionItems
  show ((getField m sec).bind Json.asArray).getD [] = _
  rw [hm]
  unfold mergedSectionField
  rcases h : (update.get sec).bind Json.asArray with _ | us
  · rfl
  · rfl

theorem sectionItems_obj (u : List (String × Json)) (sec : String) :
    sectionItems (Json.obj u) sec = ((getField u sec).bind Json.asArray).getD [] := rfl

theorem keysOk_sectionItems_after_merge {sec key : String}
    {s m : List (String × Json)} {update : Json}
    (hm : getField m sec = mergedSectionField s update sec key)
    (hex : KeysOk key (sectionItems (Json.obj s) sec))
    (hnew : KeysOk key (sectionItems update sec)) :
    KeysOk key (sectionItems (Json.obj m) sec) := by
  rw [sectionItems_after_merge hm]
  rcases h : (update.get sec).bind Json.asArray with _ | us
  · exact hex
  · have hus : sectionItems update sec = us := by
      unfold sectionItems
      rw [h]
      rfl
    rw [hus] at hnew
    exact keysOk_merge_array_by_key hex hnew

theorem lookup_sectionItems_after_merge {sec key : String}
    {s m : List (String × Json)} {update : Json}
    (hm : getField m sec = mergedSectionField s update sec key)
    (hex : KeysOk key (sectionItems (Json.obj s) sec))
    (hnew : KeysOk key (sectionItems update sec)) (k : String) :
    lookupByKey key (sectionItems (Json.obj m) sec) k
      = match lookupByKey key (sectionItems update sec) k with
        | some u => some u
        | none => lookupByKey key (sectionItems (Json.obj s) sec) k := by
  rw [sectionItems_after_merge hm]
  rcases h : (update.get sec).bind Json.asArray with _ | us
  · have hus : sectionItems update sec = [] := by
      unfold sectionItems
      rw [h]
      rfl
    rw [hus]
    show lookupByKey key (sectionItems (Json.obj s) sec) k
      = match List.find? (fun item => itemKey key item == some k) [] with
        | some u => some u
        | none => lookupByKey key (sectionItems (Json.obj s) sec) k
    rw [List.find?_nil]
  · have hus : sectionItems update sec = us := by
      unfold sectionItems
      rw [h]
      rfl
    rw [hus] at hnew ⊢
    exact lookup_merge_array_by_key hex hnew k

/-- The fixed table of keyed sections and their matching keys
(spec §4.5: options and variables match by `label`, pros/cons by `option`). -/
def keyedSectionTable : List (String × String) :=
  [("options", "label"), ("variables", "label"), ("pros_cons", "option")]

theorem merge_summary_section {sec key : String}
    (hsec : (sec, key) ∈ keyedSectionTable)
    (s : List (String × Json)) (update : Json) :
    ∃ m, merge_summary (some (some (Json.obj s))) update = some (Json.obj m) ∧
      getField m sec = mergedSectionField s update sec key := by
  obtain ⟨m, hm, ho, hv, hp, _, _⟩ := merge_summary_obj_spec s update
  simp only [keyedSectionTable, List.mem_cons, List.mem_singleton,
    List.not_mem_nil, or_false] at hsec
  rcases hsec with h | h | h <;>
    · have hs := congrArg Prod.fst h
      have hk := congrArg Prod.snd h
      simp only at hs hk
      subst hs
      subst hk
      first
        | exact ⟨m, hm, ho⟩
        | exact ⟨m, hm, hv⟩
        | exact ⟨m, hm, hp⟩

/-- C1: For every existing summary and update, each of the three keyed list
sections is merged by its section-specific key — update entries with a matching
key replace the matched entry in place, unmatched update entries are appended,
and untargeted existing entries are preserved unchanged (`mergedByKeySpec`
states exactly that shape); consequently a two-step merge
`merge (merge S U1) U2` preserves every keyed entry of `S` not targeted by `U1`
or `U2`, and an entry targeted by both ends up equal to the `U2` version
(last-write-wins per key). -/
theorem c1_summary_merger_keyed_sections (sec key : String)
    (hsec : (sec, key) ∈ keyedSectionTable)
    (s u u1 u2 : List (String × Json)) :
    (∀ us, getField u sec = some (Json.arr us) →
      KeysOk key (sectionItems (Json.obj s) sec) → KeysOk key us →
      ∃ m, merge_summary (some (some (Json.obj s))) (Json.obj u) = some (Json.obj m) ∧
        getField m sec
          = some (Json.arr (mergedByKeySpec key (sectionItems (Json.obj s) sec) us)))
    ∧
    (KeysOk key (sectionItems (Json.obj s) sec) →
     KeysOk key (sectionItems (Json.obj u1) sec) →
     KeysOk key (sectionItems (Json.obj u2) sec) →
      ∃ m1 m2,
        merge_summary (some (some (Json.obj s))) (Json.obj u1) = some (Json.obj m1) ∧
        merge_summary (some (some (Json.obj m1))) (Json.obj u2) = some (Json.obj m2) ∧
        (∀ k, lookupByKey key (sectionItems (Json.obj u1) sec) k = none →
              lookupByKey key (sectionItems (Json.obj u2) sec) k = none →
              lookupByKey key (sectionItems (Json.obj m2) sec) k
                = lookupByKey key (sectionItems (Json.obj s) sec) k) ∧
        (∀ k v1 v2,
          lookupByKey key (sectionItems (Json.obj u1) sec) k = some v1 →
          lookupByKey key (sectionItems (Json.obj u2) sec) k = some v2 →
          lookupByKey key (sectionItems (Json.obj m2) sec) k = some v2)) := by
  constructor
  · intro us hus hex hnew
    obtain ⟨m, hm, hmsec⟩ := merge_summary_section hsec s (Json.obj u)
    refine ⟨m, hm, ?_⟩
    rw [hmsec]
    unfold mergedSectionField
    have harr : ((Json.obj u).get sec).bind Json.asArray = some us := by
      show (getField u sec).bind Json.asArray = some us
      rw [hus]
      rfl
    rw [harr]
    show some (Json.arr (merge_array_by_key
        (((getField s sec).bind Json.asArray).getD []) us key))
      = some (Json.arr (mergedByKeySpec key (sectionItems (Json.obj s) sec) us))
    have hcur : sectionItems (Json.obj s) sec
        = ((getField s sec).bind Json.asArray).getD [] := rfl
    rw [← hcur, merge_array_by_key_eq_spec us _ hex hnew]
  · intro hexs hex1 hex2
    obtain ⟨m1, hm1, hm1sec⟩ := merge_summary_section hsec s (Json.obj u1)
    obtain ⟨m2, hm2, hm2sec⟩ := merge_summary_section hsec m1 (Json.obj u2)
    have hku1 : KeysOk key (sectionItems (Json.obj m1) sec) :=
      keysOk_sectionItems_after_merge hm1sec hexs hex1
    have hlook1 := lookup_sectionItems_after_merge hm1sec hexs hex1
    have hlook2 := lookup_sectionItems_after_merge hm2sec hku1 hex2
    refine ⟨m1, m2, hm1, hm2, ?_, ?_⟩
    · intro k hk1 hk2
      rw [hlook2 k, hk2, hlook1 k, hk1]
    · intro k v1 v2 hk1 hk2
      rw [hlook2 k, hk2]

theorem merge_array_by_key_nil_existing {key : String} {us : List Json}
    (h : KeysOk key us) : merge_array_by_key [] us key = us := by
  rw [merge_array_by_key_eq_spec us [] keysOk_nil h]
  unfold mergedByKeySpec freshEntries
  rw [List.map_nil, List.nil_append]
  rw [List.filter_eq_self]
  intro a ha
  rcases hk : itemKey key a with _ | k <;> simp [hk]

def c1S : List (String × Json) :=
  [("options", Json.arr
    [Json.obj [("label", Json.str "Stay"), ("description", Json.str "Current role")],
     Json.obj [("label", Json.str "Keep"), ("description", Json.str "Untargeted")]])]

def c1U1 : List (String × Json) :=
  [("options", Json.arr
    [Json.obj [("label", Json.str "Stay"), ("description", Json.str "Known team")],
     Json.obj [("label", Json.str "Leave"), ("description", Json.str "Higher upside")]])]

def c1U2 : List (String × Json) :=
  [("options", Json.arr
    [Json.obj [("label", Json.str "Stay"), ("description", Json.str "Final word")]])]

/-- Witness for C1 at a concrete summary and two concrete updates. -/
theorem c1_witness :
    (∃ m, merge_summary (some (some (Json.obj c1S))) (Json.obj c1U1)
        = some (Json.obj m) ∧
      getField m "options" = some (Json.arr (mergedByKeySpec "label"
        (sectionItems (Json.obj c1S) "options")
        [Json.obj [("label", Json.str "Stay"), ("description", Json.str "Known team")],
         Json.obj [("label", Json.str "Leave"), ("description", Json.str "Higher upside")]])))
    ∧
    (∃ m1 m2,
      merge_summary (some (some (Json.obj c1S))) (Json.obj c1U1) = some (Json.obj m1) ∧
      merge_summary (some (some (Json.obj m1))) (Json.obj c1U2) = some (Json.obj m2) ∧
      lookupByKey "label" (sectionItems (Json.obj m2) "options") "Keep"
        = lookupByKey "label" (sectionItems (Json.obj c1S) "options") "Keep" ∧
      lookupByKey "label" (sectionItems (Json.obj m2) "options") "Stay"
        = some (Json.obj [("label", Json.str "Stay"),
            ("description", Json.str "Final word")])) := by
  have h := c1_summary_merger_keyed_sections "options" "label" (by decide) c1S c1U1 c1U1 c1U2
  refine ⟨h.1 _ rfl rfl rfl, ?_⟩
  obtain ⟨m1, m2, hm1, hm2, huntar, htar⟩ := h.2 rfl rfl rfl
  exact ⟨m1, m2, hm1, hm2, huntar "Keep" rfl rfl, htar "Stay" _ _ rfl rfl⟩

/-- C9: a malformed (non-JSON-parsable) existing summary string is treated as
an empty summary: the merge still succeeds, gives the same result as merging
into a missing summary, and returns a summary containing exactly the
data. -/
theorem c9_merge_recovers_from_malformed (update : Json)
    (os vs pcs : List Json) (r : Json)
    (ho : update.get "options" = some (Json.arr os))
    (hv : update.get "variables" = some (Json.arr vs))
    (hp : update.get "pros_cons" = some (Json.arr pcs))
    (hr : update.get "recommendation" = some r)
    (hko : KeysOk "label" os) (hkv : KeysOk "label" vs)
    (hkp : KeysOk "option" pcs) :
    merge_summary (some none) update = merge_summary none update ∧
    merge_summary (some none) update
      = some (Json.obj [("options", Json.arr os), ("variables", Json.arr vs),
          ("pros_cons", Json.arr pcs), ("recommendation", r)]) := by
  refine ⟨rfl, ?_⟩
  have hs1 : mergeKeyedSection (Json.obj []) update "options" "label"
      = some (Json.obj [("options", Json.arr os)]) := by
    unfold mergeKeyedSection
    rw [show (update.get "options").bind Json.asArray = some os from by rw [ho]; rfl]
    show some (Json.obj [("options", Json.arr (merge_array_by_key [] os "label"))]) = _
    rw [merge_array_by_key_nil_existing hko]
  have hs2 : mergeKeyedSection (Json.obj [("options", Json.arr os)]) update
      "variables" "label"
      = some (Json.obj [("options", Json.arr os), ("variables", Json.arr vs)]) := by
    unfold mergeKeyedSection
    rw [show (update.get "variables").bind Json.asArray = some vs from by rw [hv]; rfl]
    show some (Json.obj [("options", Json.arr os),
      ("variables", Json.arr (merge_array_by_key [] vs "label"))]) = _
    rw [merge_array_by_key_nil_existing hkv]
  have hs3 : mergeKeyedSection
      (Json.obj [("options", Json.arr os), ("variables", Json.arr vs)]) update
      "pros_cons" "option"
      = some (Json.obj [("options", Json.arr os), ("variables", Json.arr vs),
          ("pros_cons", Json.arr pcs)]) := by
    unfold mergeKeyedSection
    rw [show (update.get "pros_cons").bind Json.asArray = some pcs from by rw [hp]; rfl]
    show some (Json.obj [("options", Json.arr os), ("variables", Json.arr vs),
      ("pros_cons", Json.arr (merge_array_by_key [] pcs "option"))]) = _
    rw [merge_array_by_key_nil_existing hkp]
  have e1 : merge_summary (some none) update
      = (mergeKeyedSection (Json.obj []) update "options" "label").bind fun st1 =>
          (mergeKeyedSection st1 update "variables" "label").bind fun st2 =>
            (mergeKeyedSection st2 update "pros_cons" "option").bind fun st3 =>
              match update.get "recommendation" with
              | some r => st3.setKey "recommendation" r
              | none => some st3 := rfl
  rw [e1, hs1]
  show ((mergeKeyedSection (Json.obj [("options", Json.arr os)]) update
      "variables" "label").bind fun st2 =>
        (mergeKeyedSection st2 update "pros_cons" "option").bind fun st3 =>
          match update.get "recommendation" with
          | some r => st3.setKey "recommendation" r
          | none => some st3) = _
  rw [hs2]
  show ((mergeKeyedSection
      (Json.obj [("options", Json.arr os), ("variables", Json.arr vs)]) update
      "pros_cons" "option").bind fun st3 =>
        match update.get "recommendation" with
        | some r => st3.setKey "recommendation" r
        | none => some st3) = _
  rw [hs3]
  show (match update.get "recommendation" with
        | some r => (Json.obj [("options", Json.arr os), ("variables", Json.arr vs),
            ("pros_cons", Json.arr pcs)]).setKey "recommendation" r
        | none => some (Json.obj [("options", Json.arr os), ("variables", Json.arr vs),
            ("pros_cons", Json.arr pcs)])) = _
  rw [hr]
  rfl

/-- Witness for C9 at a concrete update. -/
theorem c9_witness :
    merge_summary (some none)
        (Json.obj [("options", Json.arr [Json.obj [("label", Json.str "A")]]),
          ("variables", Json.arr [Json.obj [("label", Json.str "Salary")]]),
          ("pros_cons", Json.arr [Json.obj [("option", Json.str "A")]]),
          ("recommendation", Json.obj [("choice", Json.str "A")])])
      = merge_summary none
        (Json.obj [("options", Json.arr [Json.obj [("label", Json.str "A")]]),
          ("variables", Json.arr [Json.obj [("label", Json.str "Salary")]]),
          ("pros_cons", Json.arr [Json.obj [("option", Json.str "A")]]),
          ("recommendation", Json.obj [("choice", Json.str "A")])]) ∧
    merge_summary (some none)
        (Json.obj [("options", Json.arr [Json.obj [("label", Json.str "A")]]),
          ("variables", Json.arr [Json.obj [("label", Json.str "Salary")]]),
          ("pros_cons", Json.arr [Json.obj [("option", Json.str "A")]]),
          ("recommendation", Json.obj [("choice", Json.str "A")])])
      = some (Json.obj [("options", Json.arr [Json.obj [("label", Json.str "A")]]),
          ("variables", Json.arr [Json.obj [("label", Json.str "Salary")]]),
          ("pros_cons", Json.arr [Json.obj [("option", Json.str "A")]]),
          ("recommendation", Json.obj [("choice", Json.str "A")])]) :=
  c9_merge_recovers_from_malformed _ _ _ _ _ rfl rfl rfl rfl rfl rfl rfl

/-! ## `debate.rs`: the Retrying Call Wrapper (`call_agent_with_retry`) -/

/-- The loop body of `call_agent_with_retry` (`debate.rs` lines 294–313): one
entry per attempt; the first success returns its text, an error is remembered
as `last_err` (the 1-second backoff sleep does not affect the result). -/
def runAttempts : List (Except String String) → String → Except String String
  | [], last_err => Except.error last_err
  | r :: rest, _ =>
      match r with
      | Except.ok text => Except.ok text
      | Except.error e => runAttempts rest e

/-- The number of attempts the loop actually performs before returning. -/
def attemptsUsed : List (Except String String) → Nat
  | [] => 0
  | r :: rest =>
      match r with
      | Except.ok _ => 1
      | Except.error _ => 1 + attemptsUsed rest

/-- `call_agent_with_retry` (`debate.rs` lines 280–316): attempts
`0..=max_retries` against the external completion call, modelled by the oracle
`calls` giving the result of each attempt index; exhaustion yields the named
failure built at line 315, carrying the agent label, the total attempt count
`max_retries + 1`, and the last underlying error. -/
def call_agent_with_retry (agent_label : String) (max_retries : Nat)
    (calls : Nat → Except String String) : Except String String :=
  match runAttempts ((List.range (max_retries + 1)).map calls) "" with
  | Except.ok text => Except.ok text
  | Except.error e =>
      Except.error (agent_label ++ " failed after " ++ toString (max_retries + 1)
        ++ " retries: " ++ e)

/-- How many attempts `call_agent_with_retry` performs. -/
def call_agent_attempts (max_retries : Nat)
    (calls : Nat → Except String String) : Nat :=
  attemptsUsed ((List.range (max_retries + 1)).map calls)

/-- C2: with `max_retries = 2`, a call failing on the first two attempts and
succeeding on the third returns the success text after exactly 3 attempts; a
call failing on all three attempts returns the named failure carrying the
persona label, the attempt count 3, and the last underlying error. -/
theorem c2_retry_wrapper (label t e0 e1 e2 : String)
    (calls : Nat → Except String String)
    (h0 : calls 0 = Except.error e0) (h1 : calls 1 = Except.error e1) :
    (calls 2 = Except.ok t →
      call_agent_with_retry label 2 calls = Except.ok t ∧
      call_agent_attempts 2 calls = 3) ∧
    (calls 2 = Except.error e2 →
      call_agent_with_retry label 2 calls
        = Except.error (label ++ " failed after 3 retries: " ++ e2) ∧
      call_agent_attempts 2 calls = 3) := by
  have hrange : (List.range 3).map calls = [calls 0, calls 1, calls 2] := rfl
  constructor
  · intro h2
    unfold call_agent_with_retry call_agent_attempts
    rw [show (2 : Nat) + 1 = 3 from rfl, hrange, h0, h1, h2]
    exact ⟨rfl, rfl⟩
  · intro h2
    unfold call_agent_with_retry call_agent_attempts
    rw [show (2 : Nat) + 1 = 3 from rfl, hrange, h0, h1, h2]
    refine ⟨?_, rfl⟩
    show Except.error (label ++ " failed after " ++ toString 3 ++ " retries: " ++ e2)
      = Except.error (label ++ " failed after 3 retries: " ++ e2)
    simp only [String.append_assoc]
    rfl

/-- Two concrete completion-call oracles for the C2 witness. -/
def c2CallsRecover : Nat → Except String String
  | 0 => Except.error "connection reset"
  | 1 => Except.error "rate limited"
  | _ => Except.ok "Here is my opening position."

def c2CallsAlwaysFail : Nat → Except String String
  | 0 => Except.error "connection reset"
  | 1 => Except.error "rate limited"
  | _ => Except.error "upstream unavailable"

/-- Witness for C2 at two concrete oracles. -/
theorem c2_witness :
    (call_agent_with_retry "The Optimist" 2 c2CallsRecover
        = Except.ok "Here is my opening position." ∧
      call_agent_attempts 2 c2CallsRecover = 3) ∧
    (call_agent_with_retry "The Optimist" 2 c2CallsAlwaysFail
        = Except.error
            ("The Optimist" ++ " failed after 3 retries: " ++ "upstream unavailable") ∧
      call_agent_attempts 2 c2CallsAlwaysFail = 3) :=
  ⟨(c2_retry_wrapper "The Optimist" "Here is my opening position."
      "connection reset" "rate limited" "" c2CallsRecover rfl rfl).1 rfl,
   (c2_retry_wrapper "The Optimist" "" "connection reset" "rate limited"
      "upstream unavailable" c2CallsAlwaysFail rfl rfl).2 rfl⟩

/-! ## Character-level models of the Rust `str` operations used by `debate.rs`

All text processing is modelled over `List Char` (with `String.toList` /
`String.mk` at the boundaries), mirroring `str::find`, `str::trim`,
`str::lines`, `str::replace`, `str::split_whitespace`,
`char::to_ascii_lowercase` and friends.  The Rust whitespace set is Unicode;
`Char.isWhitespace` covers the ASCII subset, which is all that the
fixed markers and the claims use. -/

theorem length_dropWhile_le_mine {α : Type} (p : α → Bool) (t : List α) :
    (t.dropWhile p).length ≤ t.length := by
  induction t with
  | nil => simp
  | cons c r ih =>
      rw [List.dropWhile_cons]
      by_cases h : p c = true
      · simp only [if_pos h]
        exact Nat.le_succ_of_le ih
      · simp [if_neg h]

/-- `str::find(needle)`: index (in characters) of the first occurrence. -/
def strFindAux (needle : List Char) : List Char → Nat → Option Nat
  | [], i => if needle.isPrefixOf ([] : List Char) then some i else none
  | c :: t, i =>
      if needle.isPrefixOf (c :: t) then some i else strFindAux needle t (i + 1)

def strFind (hay needle : String) : Option Nat :=
  strFindAux needle.toList hay.toList 0

/-- `str::contains(needle)`. -/
def strContains (hay needle : String) : Bool :=
  (strFind hay needle).isSome

/-- `str::trim` (both ends). -/
def trimChars (l : List Char) : List Char :=
  ((l.dropWhile Char.isWhitespace).reverse.dropWhile Char.isWhitespace).reverse

/-- `str::split('\n')`. -/
def splitOnChar (c : Char) : List Char → List (List Char)
  | [] => [[]]
  | x :: t =>
      match splitOnChar c t with
      | [] => []
      | cur :: rest => if x = c then [] :: cur :: rest else (x :: cur) :: rest

/-- Strip one trailing carriage return (`str::lines` line-ending handling). -/
def stripCR (l : List Char) : List Char :=
  match l.getLast? with
  | some c => if c = '\r' then l.dropLast else l
  | none => l

/-- `str::lines` applied to the chunks of `split('\n')`: every chunk but the
last was followed by a newline and has a trailing `'\r'` stripped; a final
empty chunk (text ending in `'\n'`, or empty text) yields no line. -/
def rustLinesAux : List (List Char) → List (List Char)
  | [] => []
  | [last] => if last.isEmpty then [] else [last]
  | chunk :: rest => stripCR chunk :: rustLinesAux rest

/-- `str::lines`. -/
def rustLines (s : String) : List (List Char) :=
  rustLinesAux (splitOnChar '\n' s.toList)

/-- `char::to_ascii_lowercase`. -/
def asciiLower (c : Char) : Char :=
  if 'A' ≤ c ∧ c ≤ 'Z' then Char.ofNat (c.toNat + 32) else c

/-- `str::replace(pat, rep)` for a non-empty pattern: non-overlapping,
left-to-right.  Structural recursion on a fuel that starts at the list length;
every step consumes at least one character, so the fuel never runs out. -/
def replaceCharsF (pat rep : List Char) : Nat → List Char → List Char
  | _, [] => []
  | 0, l => l
  | Nat.succ fuel, c :: t =>
      if pat.isPrefixOf (c :: t) then
        match pat with
        | [] => c :: replaceCharsF pat rep fuel t
        | _ :: patRest => rep ++ replaceCharsF pat rep fuel (t.drop patRest.length)
      else c :: replaceCharsF pat rep fuel t

def replaceChars (pat rep : List Char) (l : List Char) : List Char :=
  replaceCharsF pat rep l.length l

/-- `str::split_whitespace` (same fuel pattern). -/
def splitWSF : Nat → List Char → List (List Char)
  | _, [] => []
  | 0, _ => []
  | Nat.succ fuel, c :: t =>
      if c.isWhitespace then splitWSF fuel t
      else (c :: t.takeWhile (fun x => !x.isWhitespace))
        :: splitWSF fuel (t.dropWhile (fun x => !x.isWhitespace))

def splitWS (l : List Char) : List (List Char) :=
  splitWSF l.length l

/-! ## `debate.rs`: section extraction and the Moderator Output Parser -/

/-- `extract_section` (`debate.rs` lines 732–741): content of a markdown
section from `"## <heading>"` up to the next `"\n## "`, trimmed; empty when
the heading is absent. -/
def extract_section (text heading : String) : String :=
  let marker := "## " ++ heading
  match strFind text marker with
  | some start =>
      let after := text.toList.drop (start + marker.toList.length)
      let endPos := (strFindAux ("\n## ".toList) after 0).getD after.length
      String.mk (trimChars (after.take endPos))
  | none => ""

/-- `split_to_points` (`debate.rs` lines 744–753). -/
def split_to_points (text : String) : List String :=
  if text.toList.isEmpty then []
  else
    ((rustLines text).map (fun l =>
        trimChars (((trimChars l).dropWhile (fun c => c == '-')).dropWhile
          (fun c => c == '*')))).filter (fun l => !l.isEmpty)
      |>.map String.mk

/-- `extract_bold_value` (`debate.rs` lines 801–811): the value after a
`**<label>**:` marker up to end of line, trimmed; `none` when the marker is
absent or the value empty. -/
def extract_bold_value (text label : String) : Option String :=
  let pattern := "**" ++ label ++ "**:"
  match strFind text pattern with
  | some pos =>
      let after := text.toList.drop (pos + pattern.toList.length)
      let endPos := (strFindAux ['\n'] after 0).getD after.length
      let value := trimChars (after.take endPos)
      if value.isEmpty then none else some (String.mk value)
  | none => none

/-- The apostrophe character (written via its code point). -/
def aposChar : Char := Char.ofNat 39

/-- The tradeoffs section heading used by the moderator prompt. -/
def givingUpHeading : String := "What You" ++ String.mk [aposChar] ++ "re Giving Up"

/-- The fallback choice text of the parser (`debate.rs` line 764). -/
def defaultChoice : String := "See moderator" ++ String.mk [aposChar] ++ "s synthesis"

/-- The reasoning fallback (`debate.rs` lines 769–776): non-bold, non-empty
trimmed lines of the recommendation section joined by spaces. -/
def reasoningFallback (rec_sec : String) : String :=
  String.mk (List.intercalate [' ']
    ((((rustLines rec_sec).filter
        (fun l => !(("**".toList).isPrefixOf l))).map trimChars).filter
      (fun l => !l.isEmpty)))

/-- `parse_moderator_recommendation` (`debate.rs` lines 756–798).
`str::to_lowercase` is modelled by its ASCII action. -/
def parse_moderator_recommendation (rec_sec full_text : String) : Option Json :=
  if rec_sec.toList.isEmpty && !strContains full_text "**Choice**" then none
  else
    let text := if rec_sec.toList.isEmpty then full_text else rec_sec
    let choice := (extract_bold_value text "Choice").getD defaultChoice
    let confidence := String.mk
      (((extract_bold_value text "Confidence").getD "medium").toList.map asciiLower)
    let reasoning := (extract_bold_value text "Reasoning").getD
      (reasoningFallback rec_sec)
    let tradeoffs := extract_section full_text givingUpHeading
    let action_plan := extract_section full_text "Action Plan"
    let next_steps := split_to_points action_plan
    let conf := if strContains confidence "high" then "high"
      else if strContains confidence "low" then "low"
      else "medium"
    some (Json.obj
      [("choice", Json.str choice),
       ("confidence", Json.str conf),
       ("reasoning", Json.str reasoning),
       ("tradeoffs",
         if tradeoffs.toList.isEmpty then Json.null else Json.str tradeoffs),
       ("next_steps",
         if next_steps.isEmpty then Json.null
         else Json.arr (next_steps.map Json.str))])

/-- The parser as invoked on a moderator synthesis text
(`debate.rs` lines 696–697): the recommendation section is extracted first
and passed alongside the full text. -/
def parse_moderator_output (moderator_response : String) : Option Json :=
  parse_moderator_recommendation
    (extract_section moderator_response "Recommendation") moderator_response

/-- C7 counterexample: a moderator text with no `**Choice**` marker anywhere
but with a non-empty `## Recommendation` section makes the parser return a
recommendation object (with the fallback choice), so the claim as stated is
false on the code. -/
theorem c7_counterexample :
    strContains "## Recommendation\nGo with option B" "**Choice**" = false ∧
    (parse_moderator_output "## Recommendation\nGo with option B").isSome = true :=
  ⟨rfl, rfl⟩

/-- C7 (amended): for every moderator synthesis text that contains no
`**Choice**` marker anywhere and whose `## Recommendation` section is absent
or empty, the Moderator Output Parser returns no recommendation object rather
than fabricating one. -/
theorem c7_no_recommendation_when_no_markers (t : String)
    (hsec : (extract_section t "Recommendation").toList.isEmpty = true)
    (hchoice : strContains t "**Choice**" = false) :
    parse_moderator_output t = none := by
  unfold parse_moderator_output parse_moderator_recommendation
  rw [hsec, hchoice]
  rfl

/-- Witness for the amended C7 at a concrete synthesis text. -/
theorem c7_witness :
    (extract_section "## Where the Committee Agreed\nPoint A"
        "Recommendation").toList.isEmpty = true ∧
    strContains "## Where the Committee Agreed\nPoint A" "**Choice**" = false ∧
    parse_moderator_output "## Where the Committee Agreed\nPoint A" = none :=
  ⟨rfl, rfl,
    c7_no_recommendation_when_no_markers "## Where the Committee Agreed\nPoint A"
      rfl rfl⟩

/-! ## `debate.rs`: the spoken-output normalizer
(`normalize_spoken_debate_output`, lines 15–86) -/

/-- The heading-marker loop (lines 33–35): strip a leading `'#'` then leading
whitespace, repeatedly (same fuel pattern as `replaceCharsF`). -/
def stripHeadingMarksF : Nat → List Char → List Char
  | 0, l => l
  | Nat.succ fuel, l =>
      match l with
      | '#' :: rest => stripHeadingMarksF fuel (rest.dropWhile Char.isWhitespace)
      | other => other

def stripHeadingMarks (l : List Char) : List Char :=
  stripHeadingMarksF l.length l

/-- The list-marker strip (lines 38–44): `"- "`, `"* "` or `"• "` followed by
`trim_start`. -/
def stripListMarker (l : List Char) : List Char :=
  if ("- ".toList).isPrefixOf l then (l.drop 2).dropWhile Char.isWhitespace
  else if ("* ".toList).isPrefixOf l then (l.drop 2).dropWhile Char.isWhitespace
  else if ("• ".toList).isPrefixOf l then (l.drop 2).dropWhile Char.isWhitespace
  else l

/-- The numbered-list strip (lines 47–51): when everything before the first
`". "` is ASCII digits, drop through it and `trim_start`. -/
def stripNumberMarker (l : List Char) : List Char :=
  match strFindAux (". ".toList) l 0 with
  | some dot_pos =>
      if (l.take dot_pos).all Char.isDigit then
        (l.drop (dot_pos + 2)).dropWhile Char.isWhitespace
      else l
  | none => l

/-- The spoken labels stripped from line starts (lines 16–23). -/
def spokenLabels : List (List Char) :=
  ["position:", "key argument:", "concern:", "my vote:", "shifted?:",
    "remember this:"].map String.toList

/-- The label strip (lines 58–64): the first label (in declaration order) that
prefixes the ASCII-lowercased line is removed and the rest trimmed. -/
def stripSpokenLabel (cleaned : List Char) : List Char :=
  let lower := cleaned.map asciiLower
  match spokenLabels.find? (fun lab => lab.isPrefixOf lower) with
  | some lab => trimChars (cleaned.drop lab.length)
  | none => cleaned

/-- One line of the normalizer loop (lines 26–68): `none` when the line is
skipped (blank) or cleans to nothing. -/
def processSpokenLine (raw : List Char) : Option (List Char) :=
  let line := trimChars raw
  if line.isEmpty then none
  else
    let line := stripHeadingMarks line
    let line := stripListMarker line
    let line := stripNumberMarker line
    let cleaned := replaceChars [Char.ofNat 96] []
      (replaceChars ['_', '_'] [] (replaceChars ['*', '*'] [] line))
    let cleaned := stripSpokenLabel cleaned
    if cleaned.isEmpty then none else some cleaned

/-- The compacted text (lines 71–79): kept lines joined by single spaces,
whitespace collapsed, space-before-punctuation fixed. -/
def normalizeCompact (text : String) : List Char :=
  let parts := (rustLines text).filterMap processSpokenLine
  let merged := List.intercalate [' '] parts
  let compact0 := List.intercalate [' '] (splitWS merged)
  replaceChars [' ', ':'] [':']
    (replaceChars [' ', ';'] [';']
      (replaceChars [' ', ','] [',']
        (replaceChars [' ', '.'] ['.'] compact0)))

/-- `normalize_spoken_debate_output` (lines 15–86): the compacted text, or the
trimmed original when compaction yields nothing (lines 81–85). -/
def normalize_spoken_debate_output (text : String) : String :=
  if (normalizeCompact text).isEmpty then String.mk (trimChars text.toList)
  else String.mk (normalizeCompact text)

/-! ## `debate.rs`: the Transcript Formatter (`format_transcript`, lines 250–277) -/

/-- `db::DebateRound` (the store-generated identity fields `id`, `decision_id`
and `created_at` are omitted: no claim concerns them). -/
structure DebateRound where
  round_number : Int
  exchange_number : Int
  agent : String
  content : String

/-- `agents::AgentInfo` (display-only fields `emoji`, `color`, `builtin`,
`sort_order`, `voice_gender` are omitted: no claim concerns them). -/
structure AgentInfo where
  key : String
  label : String
  role : String

/-- The section header pushed when the `(round, exchange)` pair changes
(`debate.rs` lines 259–265). -/
def transcriptHeader (current_round current_exchange : Int) : String :=
  match current_round with
  | 1 => "Round 1 (opening)"
  | 2 => "Round 2 (exchange " ++ toString current_exchange ++ ")"
  | 3 => "Round 3 (final statements)"
  | 99 => "Moderator synthesis"
  | r => "Round " ++ toString r

/-- The display label of the agent of a turn (`debate.rs` lines 269–272): registry
label when the key is known, the raw key otherwise. -/
def agentLabel (all_agents : List AgentInfo) (agentKey : String) : String :=
  ((all_agents.find? fun a => a.key == agentKey).map fun a => a.label).getD agentKey

/-- One `"<Label>: <content>"` transcript line (`debate.rs` line 273). -/
def transcriptLine (all_agents : List AgentInfo) (r : DebateRound) : String :=
  agentLabel all_agents r.agent ++ ": " ++ r.content

/-- The section list built by the loop of `format_transcript`
(lines 251–274), threading the current `(round, exchange)` pair
(initially `(-1, -1)`). -/
def transcriptSectionsAux (all_agents : List AgentInfo) :
    List DebateRound → Int → Int → List String
  | [], _, _ => []
  | r :: rest, current_round, current_exchange =>
      if r.round_number != current_round || r.exchange_number != current_exchange
      then
        transcriptHeader r.round_number r.exchange_number
          :: transcriptLine all_agents r
          :: transcriptSectionsAux all_agents rest r.round_number r.exchange_number
      else
        transcriptLine all_agents r
          :: transcriptSectionsAux all_agents rest current_round current_exchange

/-- `format_transcript` (`debate.rs` lines 250–277). -/
def format_transcript (rounds : List DebateRound) (all_agents : List AgentInfo) :
    String :=
  String.intercalate "\n\n" (transcriptSectionsAux all_agents rounds (-1) (-1))

theorem transcript_same_bucket (all_agents : List AgentInfo) {r e : Int} :
    ∀ (b rest : List DebateRound),
      (∀ t ∈ b, t.round_number = r ∧ t.exchange_number = e) →
      transcriptSectionsAux all_agents (b ++ rest) r e
        = b.map (transcriptLine all_agents)
          ++ transcriptSectionsAux all_agents rest r e := by
  intro b
  induction b with
  | nil => intro rest _; simp
  | cons t btail ih =>
      intro rest hb
      obtain ⟨htr, hte⟩ := hb t (List.mem_cons_self ..)
      rw [List.cons_append]
      show (if t.round_number != r || t.exchange_number != e then _ else _) = _
      rw [htr, hte]
      simp only [bne_self_eq_false, Bool.or_self, if_false, Bool.false_eq_true]
      rw [List.map_cons, List.cons_append]
      exact congrArg _ (ih rest fun x hx => hb x (List.mem_cons_of_mem _ hx))

theorem transcript_new_bucket (all_agents : List AgentInfo) {r e cr ce : Int}
    (hne : (r != cr || e != ce) = true) :
    ∀ (b rest : List DebateRound), b ≠ [] →
      (∀ t ∈ b, t.round_number = r ∧ t.exchange_number = e) →
      transcriptSectionsAux all_agents (b ++ rest) cr ce
        = transcriptHeader r e
          :: (b.map (transcriptLine all_agents)
            ++ transcriptSectionsAux all_agents rest r e) := by
  intro b rest hbne hb
  match b with
  | [] => exact absurd rfl hbne
  | t :: btail =>
      obtain ⟨htr, hte⟩ := hb t (List.mem_cons_self ..)
      rw [List.cons_append]
      show (if t.round_number != cr || t.exchange_number != ce then _ else _) = _
      rw [htr, hte, if_pos hne]
      rw [List.map_cons, List.cons_append]
      exact congrArg _ (congrArg _
        (transcript_same_bucket all_agents btail rest
          fun x hx => hb x (List.mem_cons_of_mem _ hx)))

/-- C8: a turn list grouped contiguously into the four buckets round 1,
round 2 exchange 1, round 2 exchange 2, round 3 renders with exactly four
section headers in that order, each followed by one `"<Label>: <content>"`
line per turn of its bucket. -/
theorem c8_transcript_four_buckets (all_agents : List AgentInfo)
    (b1 b2 b3 b4 : List DebateRound)
    (h1 : b1 ≠ []) (h2 : b2 ≠ []) (h3 : b3 ≠ []) (h4 : b4 ≠ [])
    (hb1 : ∀ t ∈ b1, t.round_number = 1 ∧ t.exchange_number = 1)
    (hb2 : ∀ t ∈ b2, t.round_number = 2 ∧ t.exchange_number = 1)
    (hb3 : ∀ t ∈ b3, t.round_number = 2 ∧ t.exchange_number = 2)
    (hb4 : ∀ t ∈ b4, t.round_number = 3 ∧ t.exchange_number = 1) :
    format_transcript (b1 ++ b2 ++ b3 ++ b4) all_agents
      = String.intercalate "\n\n"
          ("Round 1 (opening)" :: (b1.map (transcriptLine all_agents)
            ++ "Round 2 (exchange 1)" :: (b2.map (transcriptLine all_agents)
              ++ "Round 2 (exchange 2)" :: (b3.map (transcriptLine all_agents)
                ++ "Round 3 (final statements)"
                  :: b4.map (transcriptLine all_agents))))) := by
  unfold format_transcript
  refine congrArg _ ?_
  rw [List.append_assoc, List.append_assoc]
  rw [transcript_new_bucket all_agents (by decide) b1 _ h1 hb1]
  rw [transcript_new_bucket all_agents (by decide) b2 _ h2 hb2]
  rw [transcript_new_bucket all_agents (by decide) b3 _ h3 hb3]
  rw [show (b4 : List DebateRound) = b4 ++ [] from (List.append_nil b4).symm,
    transcript_new_bucket all_agents (by decide) b4 [] h4 hb4]
  simp only [transcriptSectionsAux, List.append_nil]
  rfl

def c8Agents : List AgentInfo :=
  [⟨"rationalist", "Rationalist", "debater"⟩, ⟨"advocate", "Advocate", "debater"⟩]

def c8B1 : List DebateRound :=
  [⟨1, 1, "rationalist", "open one"⟩, ⟨1, 1, "advocate", "open two"⟩]

def c8B2 : List DebateRound := [⟨2, 1, "rationalist", "first exchange"⟩]

def c8B3 : List DebateRound := [⟨2, 2, "advocate", "second exchange"⟩]

def c8B4 : List DebateRound := [⟨3, 1, "rationalist", "closing"⟩]

/-- Witness for C8 at a concrete grouped transcript. -/
theorem c8_witness :
    format_transcript (c8B1 ++ c8B2 ++ c8B3 ++ c8B4) c8Agents
      = String.intercalate "\n\n"
          ("Round 1 (opening)" :: (c8B1.map (transcriptLine c8Agents)
            ++ "Round 2 (exchange 1)" :: (c8B2.map (transcriptLine c8Agents)
              ++ "Round 2 (exchange 2)" :: (c8B3.map (transcriptLine c8Agents)
                ++ "Round 3 (final statements)"
                  :: c8B4.map (transcriptLine c8Agents))))) :=
  c8_transcript_four_buckets c8Agents c8B1 c8B2 c8B3 c8B4
    (by simp [c8B1]) (by simp [c8B2]) (by simp [c8B3])
    (by simp [c8B4]) (by decide) (by decide) (by decide) (by decide)

/-! ## `debate.rs`: the Round Runner and the Debate Orchestrator

The SQLite store and the event surface are modelled as explicit state
(`DbState`, the event list); the completion service is an oracle `calls`
giving the result of each `(round, exchange, agent, attempt)`; the shared
cancellation flag is an oracle `cancel` giving the value read at each
successive check.  Streaming token events and the fire-and-forget TTS side
pipeline are omitted: they write no turn, status or summary data.  Prompt
text construction (briefs, round templates) feeds only the completion calls
and is carried opaquely. -/

/-- The events emitted by the orchestrator that the claims concern
(the per-decision id tag is omitted: one decision is modelled). -/
inductive DebateEvent where
  | debateStarted
  | agentResponse (round exchange : Int) (agent content : String)
  | roundComplete (round exchange : Int)
  | debateError (msg : String)
  | summaryUpdated (summary : Json) (status : String)
  | debateComplete

/-- The per-decision store state touched by the orchestrator. -/
structure DbState where
  turns : List DebateRound
  status : String
  summary_json : Option (Option Json)
  debate_brief : Option String
  debate_started : Bool
  debate_completed : Bool

/-- Orchestration state: store, emitted events, and the number of
cancellation-flag reads performed so far. -/
structure RunState where
  db : DbState
  events : List DebateEvent
  cancelChecks : Nat

/-- One read of the shared cancellation flag. -/
def checkCancel (cancel : Nat → Bool) (st : RunState) : Bool × RunState :=
  (cancel st.cancelChecks, { st with cancelChecks := st.cancelChecks + 1 })

/-- The retrying call for one agent in one round, as the Round Runner invokes
it (`debate.rs` lines 362–366, always `max_retries = 2`). -/
def agentOutcome (calls : Int → Int → String → Nat → Except String String)
    (r e : Int) (agent : AgentInfo) : Except String String :=
  call_agent_with_retry agent.label 2 (calls r e agent.key)

/-- The turn a debater slot persists, if any: successful output is
normalized before being saved (`debate.rs` lines 369–381). -/
def agentTurn (calls : Int → Int → String → Nat → Except String String)
    (r e : Int) (agent : AgentInfo) : Option DebateRound :=
  match agentOutcome calls r e agent with
  | Except.ok text => some ⟨r, e, agent.key, normalize_spoken_debate_output text⟩
  | Except.error _ => none

/-- The per-agent event a debater slot emits: the normalized output on
success (lines 385–391), the failure placeholder on exhausted retries
(lines 398–407). -/
def agentEvent (calls : Int → Int → String → Nat → Except String String)
    (r e : Int) (agent : AgentInfo) : DebateEvent :=
  match agentOutcome calls r e agent with
  | Except.ok text =>
      DebateEvent.agentResponse r e agent.key (normalize_spoken_debate_output text)
  | Except.error err =>
      DebateEvent.agentResponse r e "error"
        ("An agent was unable to participate: " ++ err)

/-- The per-debater loop of `run_sequential_round` (lines 350–409): check the
flag, run the retrying call; success persists the normalized turn and emits
its event, failure emits the placeholder and continues. -/
def roundAgentsLoop (calls : Int → Int → String → Nat → Except String String)
    (cancel : Nat → Bool) (r e : Int) :
    List AgentInfo → RunState → List DebateRound →
      Except String (List DebateRound) × RunState
  | [], st, acc =>
      (Except.ok acc,
        { st with events := st.events ++ [DebateEvent.roundComplete r e] })
  | agent :: rest, st, acc =>
      let (c, st) := checkCancel cancel st
      if c then (Except.error "Debate cancelled", st)
      else
        match agentOutcome calls r e agent with
        | Except.ok text =>
            let turn : DebateRound :=
              ⟨r, e, agent.key, normalize_spoken_debate_output text⟩
            let st : RunState :=
              { st with
                db := { st.db with turns := st.db.turns ++ [turn] },
                events := st.events ++ [DebateEvent.agentResponse r e agent.key
                  (normalize_spoken_debate_output text)] }
            roundAgentsLoop calls cancel r e rest st (acc ++ [turn])
        | Except.error err =>
            let st : RunState :=
              { st with events := st.events ++ [DebateEvent.agentResponse r e
                "error" ("An agent was unable to participate: " ++ err)] }
            roundAgentsLoop calls cancel r e rest st acc

/-- `run_sequential_round` (lines 319–419): entry cancellation check, round
template validity (rounds 1, 2, 3 only), then the sequential per-debater loop,
then one round-complete event. -/
def run_sequential_round (calls : Int → Int → String → Nat → Except String String)
    (cancel : Nat → Bool) (r e : Int) (debaters : List AgentInfo)
    (st : RunState) : Except String (List DebateRound) × RunState :=
  let (c, st) := checkCancel cancel st
  if c then (Except.error "Debate cancelled", st)
  else if r = 1 ∨ r = 2 ∨ r = 3 then
    roundAgentsLoop calls cancel r e debaters st []
  else (Except.error "Invalid round number", st)

/-- The per-debater final-vote excerpts (`debate.rs` lines 673–683): the first
200 characters of each debater's last persisted turn. -/
def finalVotes (all_rounds : List DebateRound) (debaters : List AgentInfo) :
    List (String × Json) :=
  debaters.filterMap fun agent =>
    ((all_rounds.filter fun t => t.agent == agent.key).getLast?).map fun entry =>
      (agent.key, Json.str (String.mk (entry.content.toList.take 200)))

/-- The `debate_summary` object built from the moderator's text
(`debate.rs` lines 685–694). -/
def debateSummaryValue (all_rounds : List DebateRound)
    (moderator_response : String) (debaters : List AgentInfo) : Json :=
  Json.obj
    [("consensus_points", Json.arr ((split_to_points
        (extract_section moderator_response "Where the Committee Agreed")).map
          Json.str)),
     ("key_disagreements", Json.arr ((split_to_points
        (extract_section moderator_response "Key Disagreements")).map Json.str)),
     ("biases_identified", Json.arr ((split_to_points
        (extract_section moderator_response
          "Biases & Blind Spots Identified")).map Json.str)),
     ("final_votes", Json.obj (finalVotes all_rounds debaters))]

/-- The update object handed to the Summary Merger (`debate.rs` lines
708–717): the debate summary plus, when parsed, the recommendation. -/
def debateUpdateValue (all_rounds : List DebateRound)
    (moderator_response : String) (debaters : List AgentInfo) : Json :=
  match parse_moderator_output moderator_response with
  | some r =>
      Json.obj [("debate_summary",
          debateSummaryValue all_rounds moderator_response debaters),
        ("recommendation", r)]
  | none =>
      Json.obj [("debate_summary",
          debateSummaryValue all_rounds moderator_response debaters)]

/-- `update_summary_from_debate` (`debate.rs` lines 666–729): merge the update
into the decision's existing summary, persist it, and emit the
summary-updated event.  `none` models the serde_json panic inside
`merge_summary` (existing summary parsing to a non-object, non-null value). -/
def update_summary_from_debate (all_rounds : List DebateRound)
    (moderator_response : String) (debaters : List AgentInfo)
    (st : RunState) : Option RunState :=
  match merge_summary st.db.summary_json
      (debateUpdateValue all_rounds moderator_response debaters) with
  | some merged =>
      some { st with
        db := { st.db with summary_json := some (some merged) },
        events := st.events
          ++ [DebateEvent.summaryUpdated merged "recommended"] }
  | none => none

/-- The possible outcomes of a `run_debate` invocation: `Ok(())`, `Err(e)`
(the spawning command then emits a debate-error event with `e`), or the
serde_json panic path inside the summary merge. -/
inductive RunOutcome where
  | ok
  | error (e : String)
  | fault

/-- `handle_cancellation` (`debate.rs` lines 654–663): reset the decision
status to `analyzing`, emit the cancellation event, and return `Ok(())`. -/
def handle_cancellation (st : RunState) : RunOutcome × RunState :=
  (RunOutcome.ok,
    { st with
      db := { st.db with status := "analyzing" },
      events := st.events ++ [DebateEvent.debateError "Debate cancelled"] })

/-- Steps 8–10 of `run_debate` (lines 549–607): the pre-synthesis cancellation
check, the moderator call (round 99, exchange 1, persisted verbatim), the
summary update, and completion (status `recommended`, debate-complete
event). -/
def moderatorPhase (calls : Int → Int → String → Nat → Except String String)
    (cancel : Nat → Bool) (debaters : List AgentInfo)
    (all_rounds : List DebateRound) (st : RunState) : RunOutcome × RunState :=
  let (c, st) := checkCancel cancel st
  if c then handle_cancellation st
  else
    match call_agent_with_retry "Moderator" 2 (calls 99 1 "moderator") with
    | Except.error e => (RunOutcome.error e, st)
    | Except.ok moderator_response =>
        let turn : DebateRound := ⟨99, 1, "moderator", moderator_response⟩
        let st : RunState :=
          { st with
            db := { st.db with turns := st.db.turns ++ [turn] },
            events := st.events ++ [DebateEvent.agentResponse 99 1 "moderator"
              moderator_response] }
        match update_summary_from_debate all_rounds moderator_response debaters
            st with
        | none => (RunOutcome.fault, st)
        | some st =>
            (RunOutcome.ok,
              { st with
                db := { st.db with
                        debate_completed := true, status := "recommended" },
                events := st.events ++ [DebateEvent.debateComplete] })

/-- Steps 5–7 of `run_debate` (lines 512–547): the exchange and closing
rounds, each preceded by a cancellation check, skipped entirely in quick
mode. -/
def laterRounds (calls : Int → Int → String → Nat → Except String String)
    (cancel : Nat → Bool) (debaters : List AgentInfo)
    (all_rounds : List DebateRound) (st : RunState) :
    Except String (List DebateRound) × RunState × Bool :=
  let (c, st) := checkCancel cancel st
  if c then (Except.ok all_rounds, st, true)
  else
    match run_sequential_round calls cancel 2 1 debaters st with
    | (Except.error e, st) => (Except.error e, st, false)
    | (Except.ok r2e1, st) =>
        let all_rounds := all_rounds ++ r2e1
        let (c, st) := checkCancel cancel st
        if c then (Except.ok all_rounds, st, true)
        else
          match run_sequential_round calls cancel 2 2 debaters st with
          | (Except.error e, st) => (Except.error e, st, false)
          | (Except.ok r2e2, st) =>
              let all_rounds := all_rounds ++ r2e2
              let (c, st) := checkCancel cancel st
              if c then (Except.ok all_rounds, st, true)
              else
                match run_sequential_round calls cancel 3 1 debaters st with
                | (Except.error e, st) => (Except.error e, st, false)
                | (Except.ok round3, st) =>
                    (Except.ok (all_rounds ++ round3), st, false)

/-- `run_debate` (`debate.rs` lines 422–652).  Inputs taken from external
collaborators: the compiled brief (step 1 reads profile, conversation and
summary data), the loaded agent registry, and the optional participant
selection.  The final flag of `laterRounds` signals a cancellation observed
between rounds, which is handled by `handle_cancellation` (returning
`Ok(())`), while a cancellation observed inside a round propagates as
`Err("Debate cancelled")` through the `?` operator at the call sites. -/
def run_debate (brief : String) (registry : List AgentInfo)
    (selected_agent_keys : Option (List String)) (quick_mode : Bool)
    (calls : Int → Int → String → Nat → Except String String)
    (cancel : Nat → Bool) (db0 : DbState) : RunOutcome × RunState :=
  let st : RunState :=
    { db := { db0 with
              turns := [], debate_brief := some brief, status := "debating",
              debate_started := true, debate_completed := false },
      events := [DebateEvent.debateStarted], cancelChecks := 0 }
  let all_debaters := registry.filter fun a => a.role == "debater"
  let debaters := match selected_agent_keys with
    | some keys =>
        if keys.isEmpty then all_debaters
        else all_debaters.filter fun a => keys.contains a.key
    | none => all_debaters
  if debaters.isEmpty then
    (RunOutcome.error "No debaters selected for the debate", st)
  else
    match run_sequential_round calls cancel 1 1 debaters st with
    | (Except.error e, st) => (RunOutcome.error e, st)
    | (Except.ok round1, st) =>
        if quick_mode then moderatorPhase calls cancel debaters round1 st
        else
          match laterRounds calls cancel debaters round1 st with
          | (Except.error e, st, _) => (RunOutcome.error e, st)
          | (Except.ok all_rounds, st, cancelled) =>
              if cancelled then handle_cancellation st
              else moderatorPhase calls cancel debaters all_rounds st

theorem roundAgentsLoop_spec
    (calls : Int → Int → String → Nat → Except String String)
    (cancel : Nat → Bool) (r e : Int) :
    ∀ (debaters : List AgentInfo) (st : RunState) (acc : List DebateRound),
      (∀ i, i < debaters.length → cancel (st.cancelChecks + i) = false) →
      roundAgentsLoop calls cancel r e debaters st acc
        = (Except.ok (acc ++ debaters.filterMap (agentTurn calls r e)),
           { st with
             db := { st.db with
                     turns := st.db.turns
                       ++ debaters.filterMap (agentTurn calls r e) },
             events := st.events ++ debaters.map (agentEvent calls r e)
               ++ [DebateEvent.roundComplete r e],
             cancelChecks := st.cancelChecks + debaters.length }) := by
  intro debaters
  induction debaters with
  | nil =>
      intro st acc _
      simp [roundAgentsLoop]
  | cons agent rest ih =>
      intro st acc hc
      have hc0 : cancel st.cancelChecks = false := by
        simpa using hc 0 (by simp)
      simp only [roundAgentsLoop, checkCancel, hc0, Bool.false_eq_true,
        if_false]
      split
      next text ho =>
          rw [ih _ _ (fun i hi => by
            simpa [Nat.add_assoc, Nat.add_comm 1 i] using
              hc (i + 1) (by simpa using Nat.succ_lt_succ hi))]
          have hturn : agentTurn calls r e agent
              = some ⟨r, e, agent.key, normalize_spoken_debate_output text⟩ := by
            unfold agentTurn
            rw [ho]
          have hevt : agentEvent calls r e agent
              = DebateEvent.agentResponse r e agent.key
                  (normalize_spoken_debate_output text) := by
            unfold agentEvent
            rw [ho]
          simp only [List.filterMap_cons, hturn, List.map_cons, hevt]
          refine Prod.ext ?_ ?_
          · simp
          · simp only [RunState.mk.injEq, DbState.mk.injEq, List.length_cons]
            simp [List.append_assoc, Nat.add_assoc, Nat.add_comm,
              Nat.add_left_comm]
      next err ho =>
          rw [ih _ _ (fun i hi => by
            simpa [Nat.add_assoc, Nat.add_comm 1 i] using
              hc (i + 1) (by simpa using Nat.succ_lt_succ hi))]
          have hturn : agentTurn calls r e agent = none := by
            unfold agentTurn
            rw [ho]
          have hevt : agentEvent calls r e agent
              = DebateEvent.agentResponse r e "error"
                  ("An agent was unable to participate: " ++ err) := by
            unfold agentEvent
            rw [ho]
          simp only [List.filterMap_cons, hturn, List.map_cons, hevt]
          refine Prod.ext ?_ ?_
          · simp
          · simp only [RunState.mk.injEq, DbState.mk.injEq, List.length_cons]
            simp [List.append_assoc, Nat.add_assoc, Nat.add_comm,
              Nat.add_left_comm]

/-- The Round Runner under no cancellation: every debater's slot runs in
roster order (successes persisted normalized, failures tolerated as
placeholder events), one round-complete event ends the round, and the result
is `Ok`. -/
theorem run_sequential_round_spec
    (calls : Int → Int → String → Nat → Except String String)
    (cancel : Nat → Bool) (r e : Int) (debaters : List AgentInfo)
    (st : RunState) (hr : r = 1 ∨ r = 2 ∨ r = 3)
    (hc : ∀ i, i ≤ debaters.length → cancel (st.cancelChecks + i) = false) :
    run_sequential_round calls cancel r e debaters st
      = (Except.ok (debaters.filterMap (agentTurn calls r e)),
         { st with
           db := { st.db with
                   turns := st.db.turns
                     ++ debaters.filterMap (agentTurn calls r e) },
           events := st.events ++ debaters.map (agentEvent calls r e)
             ++ [DebateEvent.roundComplete r e],
           cancelChecks := st.cancelChecks + 1 + debaters.length }) := by
  have hc0 : cancel st.cancelChecks = false := by
    simpa using hc 0 (Nat.zero_le _)
  unfold run_sequential_round
  simp only [checkCancel, hc0, Bool.false_eq_true, if_false, if_pos hr]
  rw [roundAgentsLoop_spec calls cancel r e debaters _ [] (fun i hi => by
    simpa [Nat.add_assoc, Nat.add_comm 1 i] using
      hc (i + 1) (Nat.succ_le_of_lt (Nat.lt_of_lt_of_le hi (Nat.le_refl _))))]
  simp [Nat.add_assoc]

/-- C5: when one debater's call fails after all retries, the Round Runner does
not abort the round: it returns `Ok`, emits the failure placeholder for that
agent, still runs every remaining debater in roster order (one event per
roster slot, successes persisted), and ends with exactly one round-complete
event. -/
theorem c5_round_tolerates_agent_failure
    (calls : Int → Int → String → Nat → Except String String)
    (cancel : Nat → Bool) (r e : Int) (pre post : List AgentInfo)
    (f : AgentInfo) (err : String) (st : RunState)
    (hr : r = 1 ∨ r = 2 ∨ r = 3)
    (hc : ∀ i, i ≤ (pre ++ f :: post).length →
      cancel (st.cancelChecks + i) = false)
    (hf : agentOutcome calls r e f = Except.error err) :
    run_sequential_round calls cancel r e (pre ++ f :: post) st
      = (Except.ok ((pre ++ f :: post).filterMap (agentTurn calls r e)),
         { st with
           db := { st.db with
                   turns := st.db.turns
                     ++ (pre ++ f :: post).filterMap (agentTurn calls r e) },
           events := st.events
             ++ (pre ++ f :: post).map (agentEvent calls r e)
             ++ [DebateEvent.roundComplete r e],
           cancelChecks := st.cancelChecks + 1 + (pre ++ f :: post).length }) ∧
    agentTurn calls r e f = none ∧
    agentEvent calls r e f
      = DebateEvent.agentResponse r e "error"
          ("An agent was unable to participate: " ++ err) := by
  refine ⟨run_sequential_round_spec calls cancel r e _ st hr hc, ?_, ?_⟩
  · unfold agentTurn
    rw [hf]
  · unfold agentEvent
    rw [hf]

def c5Rationalist : AgentInfo := ⟨"rationalist", "Rationalist", "debater"⟩

def c5Advocate : AgentInfo := ⟨"advocate", "Advocate", "debater"⟩

def c5Contrarian : AgentInfo := ⟨"contrarian", "Contrarian", "debater"⟩

/-- A completion oracle where the advocate always fails and the others succeed
on their first attempt. -/
def c5Calls : Int → Int → String → Nat → Except String String :=
  fun _ _ key _ =>
    if key == "advocate" then Except.error "service down"
    else Except.ok "I support option A."

def c5St : RunState :=
  ⟨⟨[], "debating", none, none, true, false⟩, [DebateEvent.debateStarted], 0⟩

/-- Witness for C5: middle debater exhausts its retries, the round still
completes with both other turns persisted. -/
theorem c5_witness :
    run_sequential_round c5Calls (fun _ => false) 1 1
        ([c5Rationalist] ++ c5Advocate :: [c5Contrarian]) c5St
      = (Except.ok (([c5Rationalist] ++ c5Advocate :: [c5Contrarian]).filterMap
          (agentTurn c5Calls 1 1)),
         { c5St with
           db := { c5St.db with
                   turns := c5St.db.turns
                     ++ ([c5Rationalist] ++ c5Advocate :: [c5Contrarian]).filterMap
                       (agentTurn c5Calls 1 1) },
           events := c5St.events
             ++ ([c5Rationalist] ++ c5Advocate :: [c5Contrarian]).map
               (agentEvent c5Calls 1 1)
             ++ [DebateEvent.roundComplete 1 1],
           cancelChecks := c5St.cancelChecks + 1
             + ([c5Rationalist] ++ c5Advocate :: [c5Contrarian]).length }) ∧
    agentTurn c5Calls 1 1 c5Advocate = none ∧
    agentEvent c5Calls 1 1 c5Advocate
      = DebateEvent.agentResponse 1 1 "error"
          ("An agent was unable to participate: "
            ++ ("Advocate" ++ " failed after " ++ toString 3 ++ " retries: "
              ++ "service down")) :=
  c5_round_tolerates_agent_failure c5Calls (fun _ => false) 1 1
    [c5Rationalist] [c5Contrarian] c5Advocate
    ("Advocate" ++ " failed after " ++ toString 3 ++ " retries: "
      ++ "service down")
    c5St (Or.inl rfl) (fun _ _ => rfl) rfl

theorem laterRounds_cancelled_at_entry
    (calls : Int → Int → String → Nat → Except String String)
    (cancel : Nat → Bool) (debaters : List AgentInfo)
    (all_rounds : List DebateRound) (st : RunState)
    (hcT : cancel st.cancelChecks = true) :
    laterRounds calls cancel debaters all_rounds st
      = (Except.ok all_rounds,
          { st with cancelChecks := st.cancelChecks + 1 }, true) := by
  unfold laterRounds
  simp [checkCancel, hcT]

theorem agentTurn_coords
    (calls : Int → Int → String → Nat → Except String String) (r e : Int)
    (debaters : List AgentInfo) :
    ∀ t ∈ debaters.filterMap (agentTurn calls r e),
      t.round_number = r ∧ t.exchange_number = e := by
  intro t ht
  obtain ⟨agent, _, hag⟩ := List.mem_filterMap.mp ht
  unfold agentTurn at hag
  cases ho : agentOutcome calls r e agent with
  | error err =>
      rw [ho] at hag
      simp at hag
  | ok text =>
      rw [ho] at hag
      simp at hag
      rw [← hag]
      exact ⟨rfl, rfl⟩

/-- C3: cancellation requested after round 1 completes and before round 2
begins halts the orchestrator with exactly the round-1 turns persisted, no
round-2 and no moderator turns, status reset to `analyzing`, one cancellation
event, and an `Ok` result (not an error to the caller). -/
theorem c3_cancellation_between_rounds (brief : String)
    (registry : List AgentInfo) (debaters : List AgentInfo)
    (calls : Int → Int → String → Nat → Except String String)
    (cancel : Nat → Bool) (db0 : DbState)
    (hD : (registry.filter fun a => a.role == "debater") = debaters)
    (hne : debaters.isEmpty = false)
    (hcF : ∀ i, i ≤ debaters.length → cancel i = false)
    (hcT : cancel (debaters.length + 1) = true) :
    ∃ stF, run_debate brief registry none false calls cancel db0
        = (RunOutcome.ok, stF) ∧
      stF.db.turns = debaters.filterMap (agentTurn calls 1 1) ∧
      (∀ t ∈ stF.db.turns, t.round_number = 1 ∧ t.exchange_number = 1) ∧
      stF.db.status = "analyzing" ∧
      stF.events = [DebateEvent.debateStarted]
        ++ debaters.map (agentEvent calls 1 1)
        ++ [DebateEvent.roundComplete 1 1]
        ++ [DebateEvent.debateError "Debate cancelled"] := by
  have h1 := run_sequential_round_spec calls cancel 1 1 debaters
    ⟨{ db0 with
       turns := [], debate_brief := some brief, status := "debating",
       debate_started := true, debate_completed := false },
     [DebateEvent.debateStarted], 0⟩
    (Or.inl rfl) (fun i hi => by simpa using hcF i hi)
  have h2 := laterRounds_cancelled_at_entry calls cancel debaters
    (debaters.filterMap (agentTurn calls 1 1))
    ({ db := { db0 with
         turns := [] ++ debaters.filterMap (agentTurn calls 1 1),
         debate_brief := some brief, status := "debating",
         debate_started := true, debate_completed := false },
       events := [DebateEvent.debateStarted]
         ++ debaters.map (agentEvent calls 1 1)
         ++ [DebateEvent.roundComplete 1 1],
       cancelChecks := 0 + 1 + debaters.length })
    (by simpa [Nat.add_comm] using hcT)
  have hrun : run_debate brief registry none false calls cancel db0
      = (RunOutcome.ok,
         { db := { db0 with
             turns := debaters.filterMap (agentTurn calls 1 1),
             debate_brief := some brief, status := "analyzing",
             debate_started := true, debate_completed := false },
           events := [DebateEvent.debateStarted]
             ++ debaters.map (agentEvent calls 1 1)
             ++ [DebateEvent.roundComplete 1 1]
             ++ [DebateEvent.debateError "Debate cancelled"],
           cancelChecks := debaters.length + 2 }) := by
    simp only [run_debate, hD, hne, Bool.false_eq_true, if_false, h1, h2,
      handle_cancellation, if_true]
    simp [RunState.mk.injEq, DbState.mk.injEq, List.append_assoc,
      Nat.add_comm, Nat.add_assoc, Nat.add_left_comm]
  refine ⟨_, hrun, by simp, ?_, rfl, rfl⟩
  intro t ht
  exact agentTurn_coords calls 1 1 debaters t (by simpa using ht)

def c3Registry : List AgentInfo :=
  [⟨"rationalist", "Rationalist", "debater"⟩,
   ⟨"advocate", "Advocate", "debater"⟩,
   ⟨"moderator", "Moderator", "moderator"⟩]

def c3Debaters : List AgentInfo :=
  [⟨"rationalist", "Rationalist", "debater"⟩,
   ⟨"advocate", "Advocate", "debater"⟩]

def c3Calls : Int → Int → String → Nat → Except String String :=
  fun _ _ key _ => Except.ok ("Position of " ++ key)

/-- The flag flips to true right after the three reads of round 1. -/
def c3Cancel : Nat → Bool := fun i => decide (3 ≤ i)

def c3Db : DbState := ⟨[], "analyzing", some (some (Json.obj [])), none, false, false⟩

/-- Witness for C3 at a concrete two-debater run. -/
theorem c3_witness :
    ∃ stF, run_debate "brief" c3Registry none false c3Calls c3Cancel c3Db
        = (RunOutcome.ok, stF) ∧
      stF.db.turns = c3Debaters.filterMap (agentTurn c3Calls 1 1) ∧
      (∀ t ∈ stF.db.turns, t.round_number = 1 ∧ t.exchange_number = 1) ∧
      stF.db.status = "analyzing" ∧
      stF.events = [DebateEvent.debateStarted]
        ++ c3Debaters.map (agentEvent c3Calls 1 1)
        ++ [DebateEvent.roundComplete 1 1]
        ++ [DebateEvent.debateError "Debate cancelled"] :=
  c3_cancellation_between_rounds "brief" c3Registry c3Debaters c3Calls c3Cancel
    c3Db rfl rfl (by decide) rfl

/-- The synthesis phase under no cancellation and a successful moderator call,
starting from an object-valued existing summary: the moderator turn is
persisted verbatim as round 99 exchange 1, the parsed debate results are
merged into the summary, and the run completes with status `recommended`. -/
theorem moderatorPhase_spec
    (calls : Int → Int → String → Nat → Except String String)
    (cancel : Nat → Bool) (debaters : List AgentInfo)
    (all_rounds : List DebateRound) (st : RunState) (m : String)
    (sfields : List (String × Json))
    (hc0 : cancel st.cancelChecks = false)
    (hm : call_agent_with_retry "Moderator" 2 (calls 99 1 "moderator")
      = Except.ok m)
    (hsum : st.db.summary_json = some (some (Json.obj sfields))) :
    ∃ M, merge_summary (some (some (Json.obj sfields)))
        (debateUpdateValue all_rounds m debaters) = some (Json.obj M) ∧
      moderatorPhase calls cancel debaters all_rounds st
        = (RunOutcome.ok,
           { st with
             db := { st.db with
                     turns := st.db.turns ++ [⟨99, 1, "moderator", m⟩],
                     summary_json := some (some (Json.obj M)),
                     status := "recommended", debate_completed := true },
             events := st.events
               ++ [DebateEvent.agentResponse 99 1 "moderator" m,
                   DebateEvent.summaryUpdated (Json.obj M) "recommended",
                   DebateEvent.debateComplete],
             cancelChecks := st.cancelChecks + 1 }) := by
  obtain ⟨M, hM, -⟩ := merge_summary_obj_spec sfields
    (debateUpdateValue all_rounds m debaters)
  refine ⟨M, hM, ?_⟩
  simp only [moderatorPhase, checkCancel, hc0, Bool.false_eq_true, if_false,
    hm, update_summary_from_debate, hsum, hM]
  simp [RunState.mk.injEq, DbState.mk.injEq, List.append_assoc]

/-- C4: a quick-mode run with two debaters, every call succeeding and no
cancellation, skips the exchange and closing rounds entirely: it persists
exactly 2 turns in round 1 (one per debater, in roster order), no round-2 or
round-3 turns, exactly 1 moderator turn at round 99 exchange 1, and ends with
status `recommended` and an `Ok` result. -/
theorem c4_quick_mode_run (brief : String) (registry : List AgentInfo)
    (d1 d2 : AgentInfo) (t1 t2 m : String)
    (calls : Int → Int → String → Nat → Except String String)
    (cancel : Nat → Bool) (db0 : DbState) (sfields : List (String × Json))
    (hD : (registry.filter fun a => a.role == "debater") = [d1, d2])
    (h1 : agentOutcome calls 1 1 d1 = Except.ok t1)
    (h2 : agentOutcome calls 1 1 d2 = Except.ok t2)
    (hm : call_agent_with_retry "Moderator" 2 (calls 99 1 "moderator")
      = Except.ok m)
    (hcF : ∀ i, cancel i = false)
    (hsum : db0.summary_json = some (some (Json.obj sfields))) :
    ∃ M stF, run_debate brief registry none true calls cancel db0
        = (RunOutcome.ok, stF) ∧
      merge_summary (some (some (Json.obj sfields)))
        (debateUpdateValue
          [⟨1, 1, d1.key, normalize_spoken_debate_output t1⟩,
           ⟨1, 1, d2.key, normalize_spoken_debate_output t2⟩] m [d1, d2])
        = some (Json.obj M) ∧
      stF.db.turns
        = [⟨1, 1, d1.key, normalize_spoken_debate_output t1⟩,
           ⟨1, 1, d2.key, normalize_spoken_debate_output t2⟩,
           ⟨99, 1, "moderator", m⟩] ∧
      stF.db.status = "recommended" ∧
      stF.db.summary_json = some (some (Json.obj M)) ∧
      stF.events
        = [DebateEvent.debateStarted,
           DebateEvent.agentResponse 1 1 d1.key
             (normalize_spoken_debate_output t1),
           DebateEvent.agentResponse 1 1 d2.key
             (normalize_spoken_debate_output t2),
           DebateEvent.roundComplete 1 1,
           DebateEvent.agentResponse 99 1 "moderator" m,
           DebateEvent.summaryUpdated (Json.obj M) "recommended",
           DebateEvent.debateComplete] := by
  have ht1 : agentTurn calls 1 1 d1
      = some ⟨1, 1, d1.key, normalize_spoken_debate_output t1⟩ := by
    unfold agentTurn
    rw [h1]
  have ht2 : agentTurn calls 1 1 d2
      = some ⟨1, 1, d2.key, normalize_spoken_debate_output t2⟩ := by
    unfold agentTurn
    rw [h2]
  have he1 : agentEvent calls 1 1 d1
      = DebateEvent.agentResponse 1 1 d1.key
          (normalize_spoken_debate_output t1) := by
    unfold agentEvent
    rw [h1]
  have he2 : agentEvent calls 1 1 d2
      = DebateEvent.agentResponse 1 1 d2.key
          (normalize_spoken_debate_output t2) := by
    unfold agentEvent
    rw [h2]
  have hr1 := run_sequential_round_spec calls cancel 1 1 [d1, d2]
    ⟨{ db0 with
       turns := [], debate_brief := some brief, status := "debating",
       debate_started := true, debate_completed := false },
     [DebateEvent.debateStarted], 0⟩
    (Or.inl rfl) (fun i _ => hcF _)
  simp only [List.filterMap_cons, List.filterMap_nil, ht1, ht2, List.map_cons,
    List.map_nil, he1, he2] at hr1
  obtain ⟨M, hM, hmod⟩ := moderatorPhase_spec calls cancel [d1, d2]
    ([⟨1, 1, d1.key, normalize_spoken_debate_output t1⟩,
      ⟨1, 1, d2.key, normalize_spoken_debate_output t2⟩])
    ({ db := { db0 with
         turns := []
           ++ [⟨1, 1, d1.key, normalize_spoken_debate_output t1⟩,
               ⟨1, 1, d2.key, normalize_spoken_debate_output t2⟩],
         debate_brief := some brief, status := "debating",
         debate_started := true, debate_completed := false },
       events := [DebateEvent.debateStarted]
         ++ [DebateEvent.agentResponse 1 1 d1.key
              (normalize_spoken_debate_output t1),
             DebateEvent.agentResponse 1 1 d2.key
              (normalize_spoken_debate_output t2)]
         ++ [DebateEvent.roundComplete 1 1],
       cancelChecks := 0 + 1 + [d1, d2].length })
    m sfields (hcF _) hm hsum
  have hrun : run_debate brief registry none true calls cancel db0
      = (RunOutcome.ok,
         { db := { db0 with
             turns := [⟨1, 1, d1.key, normalize_spoken_debate_output t1⟩,
               ⟨1, 1, d2.key, normalize_spoken_debate_output t2⟩,
               ⟨99, 1, "moderator", m⟩],
             status := "recommended",
             summary_json := some (some (Json.obj M)),
             debate_brief := some brief, debate_started := true,
             debate_completed := true },
           events := [DebateEvent.debateStarted,
             DebateEvent.agentResponse 1 1 d1.key
               (normalize_spoken_debate_output t1),
             DebateEvent.agentResponse 1 1 d2.key
               (normalize_spoken_debate_output t2),
             DebateEvent.roundComplete 1 1,
             DebateEvent.agentResponse 99 1 "moderator" m,
             DebateEvent.summaryUpdated (Json.obj M) "recommended",
             DebateEvent.debateComplete],
           cancelChecks := 4 }) := by
    simp only [run_debate, hD, List.isEmpty_cons, Bool.false_eq_true, if_false,
      hr1, if_true, hmod]
    simp [RunState.mk.injEq, DbState.mk.injEq, List.append_assoc]
  exact ⟨M, _, hrun, hM, rfl, rfl, rfl, rfl⟩

def c4Registry : List AgentInfo :=
  [⟨"rationalist", "Rationalist", "debater"⟩,
   ⟨"advocate", "Advocate", "debater"⟩,
   ⟨"moderator", "Moderator", "moderator"⟩]

def c4Calls : Int → Int → String → Nat → Except String String :=
  fun r _ key _ =>
    if r == 99 then
      Except.ok "## Recommendation\n**Choice**: Stay\n**Confidence**: High"
    else Except.ok ("Opening statement of " ++ key)

def c4Db : DbState := ⟨[], "analyzing", some (some (Json.obj [])), none, false, false⟩

/-- Witness for C4 at a concrete quick-mode run. -/
theorem c4_witness :
    ∃ M stF, run_debate "brief" c4Registry none true c4Calls (fun _ => false)
        c4Db = (RunOutcome.ok, stF) ∧
      merge_summary (some (some (Json.obj [])))
        (debateUpdateValue
          [⟨1, 1, "rationalist",
             normalize_spoken_debate_output "Opening statement of rationalist"⟩,
           ⟨1, 1, "advocate",
             normalize_spoken_debate_output "Opening statement of advocate"⟩]
          "## Recommendation\n**Choice**: Stay\n**Confidence**: High"
          [⟨"rationalist", "Rationalist", "debater"⟩,
           ⟨"advocate", "Advocate", "debater"⟩])
        = some (Json.obj M) ∧
      stF.db.turns
        = [⟨1, 1, "rationalist",
             normalize_spoken_debate_output "Opening statement of rationalist"⟩,
           ⟨1, 1, "advocate",
             normalize_spoken_debate_output "Opening statement of advocate"⟩,
           ⟨99, 1, "moderator",
             "## Recommendation\n**Choice**: Stay\n**Confidence**: High"⟩] ∧
      stF.db.status = "recommended" ∧
      stF.db.summary_json = some (some (Json.obj M)) ∧
      stF.events
        = [DebateEvent.debateStarted,
           DebateEvent.agentResponse 1 1 "rationalist"
             (normalize_spoken_debate_output "Opening statement of rationalist"),
           DebateEvent.agentResponse 1 1 "advocate"
             (normalize_spoken_debate_output "Opening statement of advocate"),
           DebateEvent.roundComplete 1 1,
           DebateEvent.agentResponse 99 1 "moderator"
             "## Recommendation\n**Choice**: Stay\n**Confidence**: High",
           DebateEvent.summaryUpdated (Json.obj M) "recommended",
           DebateEvent.debateComplete] :=
  c4_quick_mode_run "brief" c4Registry
    ⟨"rationalist", "Rationalist", "debater"⟩
    ⟨"advocate", "Advocate", "debater"⟩
    "Opening statement of rationalist" "Opening statement of advocate"
    "## Recommendation\n**Choice**: Stay\n**Confidence**: High"
    c4Calls (fun _ => false) c4Db [] rfl rfl rfl rfl (fun _ => rfl) rfl

/-- C10: a successful debater turn is normalized before being persisted and
emitted; normalization falls back to the trimmed original text exactly when
compaction yields nothing; the moderator's round-99 turn is persisted
verbatim, without normalization. -/
theorem c10_normalization_pipeline :
    (∀ (calls : Int → Int → String → Nat → Except String String)
        (cancel : Nat → Bool) (r e : Int) (agent : AgentInfo) (st : RunState)
        (text : String),
      r = 1 ∨ r = 2 ∨ r = 3 →
      (∀ i, i ≤ 1 → cancel (st.cancelChecks + i) = false) →
      agentOutcome calls r e agent = Except.ok text →
      run_sequential_round calls cancel r e [agent] st
        = (Except.ok [⟨r, e, agent.key, normalize_spoken_debate_output text⟩],
           { st with
             db := { st.db with turns := st.db.turns
               ++ [⟨r, e, agent.key, normalize_spoken_debate_output text⟩] },
             events := st.events
               ++ [DebateEvent.agentResponse r e agent.key
                     (normalize_spoken_debate_output text)]
               ++ [DebateEvent.roundComplete r e],
             cancelChecks := st.cancelChecks + 2 }))
    ∧
    (∀ text, normalizeCompact text = [] →
      normalize_spoken_debate_output text = String.mk (trimChars text.toList))
    ∧
    (∀ text, normalizeCompact text ≠ [] →
      normalize_spoken_debate_output text = String.mk (normalizeCompact text))
    ∧
    (∀ (calls : Int → Int → String → Nat → Except String String)
        (cancel : Nat → Bool) (debaters : List AgentInfo)
        (all_rounds : List DebateRound) (st : RunState) (m : String)
        (sfields : List (String × Json)),
      cancel st.cancelChecks = false →
      call_agent_with_retry "Moderator" 2 (calls 99 1 "moderator")
        = Except.ok m →
      st.db.summary_json = some (some (Json.obj sfields)) →
      ∃ stF, moderatorPhase calls cancel debaters all_rounds st
          = (RunOutcome.ok, stF) ∧
        stF.db.turns = st.db.turns ++ [⟨99, 1, "moderator", m⟩]) := by
  refine ⟨?_, ?_, ?_, ?_⟩
  · intro calls cancel r e agent st text hr hc hok
    have hat : agentTurn calls r e agent
        = some ⟨r, e, agent.key, normalize_spoken_debate_output text⟩ := by
      unfold agentTurn
      rw [hok]
    have hae : agentEvent calls r e agent
        = DebateEvent.agentResponse r e agent.key
            (normalize_spoken_debate_output text) := by
      unfold agentEvent
      rw [hok]
    have hspec := run_sequential_round_spec calls cancel r e [agent] st hr
      (by simpa using hc)
    simp only [List.filterMap_cons, List.filterMap_nil, List.map_cons,
      List.map_nil, hat, hae] at hspec
    rw [hspec]
    simp [RunState.mk.injEq, DbState.mk.injEq, List.append_assoc,
      Nat.add_assoc]
  · intro text h
    unfold normalize_spoken_debate_output
    rw [h]
    rfl
  · intro text h
    cases hnc : normalizeCompact text with
    | nil => exact absurd hnc h
    | cons a l =>
        unfold normalize_spoken_debate_output
        rw [hnc]
        rfl
  · intro calls cancel debaters all_rounds st m sfields hc0 hm hsum
    obtain ⟨M, -, heq⟩ := moderatorPhase_spec calls cancel debaters all_rounds
      st m sfields hc0 hm hsum
    exact ⟨_, heq, rfl⟩

def c10Calls : Int → Int → String → Nat → Except String String :=
  fun _ _ _ _ => Except.ok "- **Position**: Keep going."

def c10St : RunState :=
  ⟨⟨[], "debating", some (some (Json.obj [])), none, true, false⟩, [], 0⟩

/-- Witness for C10 at concrete texts and a concrete one-debater round. -/
theorem c10_witness :
    (run_sequential_round c10Calls (fun _ => false) 1 1 [c5Rationalist] c10St
      = (Except.ok [⟨1, 1, "rationalist",
          normalize_spoken_debate_output "- **Position**: Keep going."⟩],
         { c10St with
           db := { c10St.db with turns := c10St.db.turns
             ++ [⟨1, 1, "rationalist",
                  normalize_spoken_debate_output "- **Position**: Keep going."⟩] },
           events := c10St.events
             ++ [DebateEvent.agentResponse 1 1 "rationalist"
                   (normalize_spoken_debate_output "- **Position**: Keep going.")]
             ++ [DebateEvent.roundComplete 1 1],
           cancelChecks := c10St.cancelChecks + 2 })) ∧
    normalize_spoken_debate_output "  **  " = String.mk (trimChars "  **  ".toList) ∧
    normalize_spoken_debate_output "- **Position**: Keep going."
      = String.mk (normalizeCompact "- **Position**: Keep going.") ∧
    (∃ stF, moderatorPhase c10Calls (fun _ => false) [c5Rationalist] [] c10St
        = (RunOutcome.ok, stF) ∧
      stF.db.turns = c10St.db.turns
        ++ [⟨99, 1, "moderator", "- **Position**: Keep going."⟩]) :=
  ⟨c10_normalization_pipeline.1 c10Calls (fun _ => false) 1 1 c5Rationalist
      c10St "- **Position**: Keep going." (Or.inl rfl) (fun _ _ => rfl) rfl,
   c10_normalization_pipeline.2.1 "  **  " (by decide),
   c10_normalization_pipeline.2.2.1 "- **Position**: Keep going." (by decide),
   c10_normalization_pipeline.2.2.2 c10Calls (fun _ => false) [c5Rationalist]
      [] c10St "- **Position**: Keep going." [] rfl rfl rfl⟩

def c6Rounds : List DebateRound := [⟨3, 1, "rationalist", "I vote stay"⟩]

def c6Debaters : List AgentInfo := [⟨"rationalist", "Rationalist", "debater"⟩]

def c6Mod : String :=
  "## Where the Committee Agreed\n- Shared point\n\n## Recommendation\n**Choice**: Stay\n**Confidence**: High\n**Reasoning**: Solid"

def c6St : RunState :=
  ⟨⟨c6Rounds, "debating", some (some (Json.obj [])), none, true, false⟩, [], 0⟩

/-- C6 (code bug): `update_summary_from_debate` builds an update object whose
`debate_summary` member carries the consensus points, disagreements, biases
and final-vote excerpts, but `merge_summary` copies only the `options`,
`variables`, `pros_cons` and `recommendation` members of an update, so the
persisted summary never contains the debate summary data — in general the
`debate_summary` field of the merged summary is whatever the prior summary had
(first conjunct), and on a concrete run the update carries a `debate_summary`
with a parsed consensus point while the persisted summary has none, even
though the recommendation does arrive (second conjunct). -/
theorem c6_debate_summary_dropped :
    (∀ (sfields : List (String × Json)) (all_rounds : List DebateRound)
        (m : String) (debaters : List AgentInfo),
      ∃ M, merge_summary (some (some (Json.obj sfields)))
          (debateUpdateValue all_rounds m debaters) = some (Json.obj M) ∧
        getField M "debate_summary" = getField sfields "debate_summary") ∧
    ((debateUpdateValue c6Rounds c6Mod c6Debaters).get "debate_summary").isSome
        = true ∧
    split_to_points (extract_section c6Mod "Where the Committee Agreed")
        = ["Shared point"] ∧
    (∃ st2, update_summary_from_debate c6Rounds c6Mod c6Debaters c6St
        = some st2 ∧
      ∃ M, st2.db.summary_json = some (some (Json.obj M)) ∧
        getField M "debate_summary" = none ∧
        (getField M "recommendation").isSome = true) := by
  refine ⟨?_, rfl, rfl, ?_⟩
  · intro sfields all_rounds m debaters
    obtain ⟨M, hM, -, -, -, -, hoth⟩ := merge_summary_obj_spec sfields
      (debateUpdateValue all_rounds m debaters)
    exact ⟨M, hM, hoth _ (by decide) (by decide) (by decide) (by decide)⟩
  · exact ⟨_, rfl, _, rfl, rfl, rfl⟩
